import Mathlib

/-!
Verification development for the GitHub portfolio analyzer service
(`server1.py`).  The Python source is shallowly embedded: strings are
lists of characters, JSON values are an inductive type with Python
`dict` semantics (keys may be arbitrary values, insertion order is
kept), fallible Python code returns `Except`, and the outcomes of the
three external collaborators (hosting API, generative text API, the
document store) are passed in explicitly as data.

Floating point JSON numbers are outside the embedding; all numeric
payloads in the development are integers, matching the integer score
fields the service consumes.
-/

/-- Python strings, modelled as lists of characters. -/
abbrev Str := List Char

/-- Characters treated as whitespace by Python's `str.strip()`
    (ASCII fragment). -/
def pyWhitespace : List Char := [' ', '\t', '\n', '\r', '\x0b', '\x0c']

/-- Python `s.strip()`: drop whitespace from both ends. -/
def pyStrip (s : Str) : Str :=
  ((s.dropWhile (pyWhitespace.contains ·)).reverse.dropWhile
    (pyWhitespace.contains ·)).reverse

/-- Python `s.strip(chars)`: drop the given characters from both ends. -/
def pyStripChars (cs : List Char) (s : Str) : Str :=
  ((s.dropWhile (cs.contains ·)).reverse.dropWhile (cs.contains ·)).reverse

/-- Index of the first occurrence of `sep` as a contiguous substring of
    `s` (Python's left-to-right scan). -/
def findSub (sep : Str) : Str → Option Nat
  | [] => if sep.isPrefixOf [] then some 0 else none
  | c :: rest =>
    if sep.isPrefixOf (c :: rest) then some 0
    else (findSub sep rest).map (· + 1)

/-- Python's `sep in s` substring test. -/
def containsSub (sep s : Str) : Bool := (findSub sep s).isSome

theorem findSub_le {sep s : Str} {i : Nat} (h : findSub sep s = some i) :
    i + sep.length ≤ s.length := by
  induction s generalizing i with
  | nil =>
    unfold findSub at h
    by_cases hp : sep.isPrefixOf ([] : Str)
    · have hnil : sep = [] := List.prefix_nil.mp (List.isPrefixOf_iff_prefix.mp hp)
      simp [hp] at h
      simp [hnil, ← h]
    · simp [hp] at h
  | cons c rest ih =>
    unfold findSub at h
    by_cases hp : sep.isPrefixOf (c :: rest)
    · simp [hp] at h
      subst h
      have := (List.isPrefixOf_iff_prefix.mp hp).length_le
      simpa using this
    · simp [hp] at h
      obtain ⟨j, hj, rfl⟩ := h
      have := ih hj
      simp
      omega

/-- Fuel-indexed worker for `splitOnSub`; the fuel strictly bounds the
    input's length, so the base case is unreachable in actual use. -/
def splitOnSubGo (sep : Str) : Nat → Str → List Str
  | 0, s => [s]
  | fuel + 1, s =>
    match findSub sep s with
    | none => [s]
    | some i => s.take i :: splitOnSubGo sep fuel (s.drop (i + sep.length))

/-- Python `s.split(sep)` for a nonempty separator. -/
def splitOnSub (sep s : Str) : List Str :=
  if sep = [] then [s] else splitOnSubGo sep (s.length + 1) s

/-- The part of `s` strictly before the first occurrence of `sep`
    (all of `s` when `sep` does not occur). -/
def upToFirst (sep s : Str) : Str :=
  match findSub sep s with
  | none => s
  | some i => s.take i

/-- The part of `s` strictly after the first occurrence of `sep`
    (all of `s` when `sep` does not occur). -/
def afterFirst (sep s : Str) : Str :=
  match findSub sep s with
  | none => s
  | some i => s.drop (i + sep.length)

/-- Fuel-indexed worker for `afterLast`. -/
def afterLastGo (sep : Str) : Nat → Str → Str
  | 0, s => s
  | fuel + 1, s =>
    match findSub sep s with
    | none => s
    | some i => afterLastGo sep fuel (s.drop (i + sep.length))

/-- The part of `s` after the last occurrence of `sep` under Python's
    non-overlapping left-to-right scan (all of `s` when `sep` does not
    occur). -/
def afterLast (sep s : Str) : Str :=
  if sep = [] then s else afterLastGo sep (s.length + 1) s

/-- JSON-like Python values (`response.json()` results, payload dicts).
    Objects keep insertion order and may carry arbitrary keys, as
    Python dicts do.  Floats are outside the model. -/
inductive JVal where
  | null : JVal
  | bool (b : Bool) : JVal
  | int (n : Int) : JVal
  | str (s : Str) : JVal
  | arr (xs : List JVal) : JVal
  | obj (kvs : List (JVal × JVal)) : JVal
deriving Repr

mutual

/-- Python `==` on the embedded values. -/
def jeq : JVal → JVal → Bool
  | JVal.null, JVal.null => true
  | JVal.bool a, JVal.bool b => a == b
  | JVal.int a, JVal.int b => a == b
  | JVal.str a, JVal.str b => a == b
  | JVal.arr a, JVal.arr b => jeqList a b
  | JVal.obj a, JVal.obj b => jeqKVs a b
  | _, _ => false

def jeqList : List JVal → List JVal → Bool
  | [], [] => true
  | a :: as, b :: bs => jeq a b && jeqList as bs
  | _, _ => false

def jeqKVs : List (JVal × JVal) → List (JVal × JVal) → Bool
  | [], [] => true
  | a :: as, b :: bs => jeq a.1 b.1 && jeq a.2 b.2 && jeqKVs as bs
  | _, _ => false

end

/-- Key lookup in a dict's entry list (first match). -/
def dictFind (kvs : List (JVal × JVal)) (k : JVal) : Option JVal :=
  match kvs.find? (fun kv => jeq kv.1 k) with
  | some kv => some kv.2
  | none => none

/-- Python `d[k]` — raises (`.error`) when `d` is not a dict or the key
    is absent. -/
def jget (d k : JVal) : Except Unit JVal :=
  match d with
  | JVal.obj kvs =>
    match dictFind kvs k with
    | some v => Except.ok v
    | none => Except.error ()
  | _ => Except.error ()

/-- Python `d.get(k, default)` — raises only when `d` is not a dict. -/
def pyGetD (d k default : JVal) : Except Unit JVal :=
  match d with
  | JVal.obj kvs => Except.ok ((dictFind kvs k).getD default)
  | _ => Except.error ()

/-- Python `d[k] = v`: replace the first entry with an equal key in
    place, or append a new entry (dict insertion order). -/
def dictSet (kvs : List (JVal × JVal)) (k v : JVal) : List (JVal × JVal) :=
  match kvs with
  | [] => [(k, v)]
  | kv :: rest =>
    if jeq kv.1 k then (kv.1, v) :: rest else kv :: dictSet rest k v

/-- Python truthiness of the embedded values. -/
def pyTruthy : JVal → Bool
  | JVal.null => false
  | JVal.bool b => b
  | JVal.int n => n != 0
  | JVal.str s => !s.isEmpty
  | JVal.arr xs => !xs.isEmpty
  | JVal.obj kvs => !kvs.isEmpty

/-- Values Python can use as dict keys (lists and dicts are
    unhashable). -/
def pyHashable : JVal → Bool
  | JVal.arr _ => false
  | JVal.obj _ => false
  | _ => true

/-- Python iteration `for x in v`: lists yield elements, strings yield
    one-character strings, dicts yield keys; other values raise. -/
def pyIter : JVal → Except Unit (List JVal)
  | JVal.arr xs => Except.ok xs
  | JVal.str s => Except.ok (s.map (fun c => JVal.str [c]))
  | JVal.obj kvs => Except.ok (kvs.map (·.1))
  | _ => Except.error ()

/-- Python slicing `v[:n]` — supported on lists and strings, raises
    otherwise. -/
def pySlice (v : JVal) (n : Nat) : Except Unit JVal :=
  match v with
  | JVal.arr xs => Except.ok (JVal.arr (xs.take n))
  | JVal.str s => Except.ok (JVal.str (s.take n))
  | _ => Except.error ()

/-- Python `int + value` as used by the accumulating sums: integers and
    booleans (which are integers in Python) add, everything else
    raises `TypeError`. -/
def pyAddInt (acc : Int) : JVal → Except Unit Int
  | JVal.int n => Except.ok (acc + n)
  | JVal.bool b => Except.ok (acc + if b then 1 else 0)
  | _ => Except.error ()

/-- Decimal digits of a natural number (most significant first). -/
def natDigits (n : Nat) : Str :=
  (Nat.toDigits 10 n)

/-- Python `str(...)` / f-string rendering of the embedded values.
    Exact text of container renderings is irrelevant to every claim. -/
def pyStr : JVal → Str
  | JVal.null => "None".toList
  | JVal.bool b => if b then "True".toList else "False".toList
  | JVal.int n =>
    if n < 0 then '-' :: natDigits n.natAbs else natDigits n.natAbs
  | JVal.str s => s
  | JVal.arr xs => '[' :: (joinSepStrs (", ".toList) (xs.map pyStrShallow)) ++ [']']
  | JVal.obj kvs =>
    '\x7b' :: (joinSepStrs (", ".toList) (kvs.map (fun kv => pyStrShallow kv.1))) ++ ['\x7d']
where
  /-- One-level rendering for container elements. -/
  pyStrShallow : JVal → Str
    | JVal.null => "None".toList
    | JVal.bool b => if b then "True".toList else "False".toList
    | JVal.int n =>
      if n < 0 then '-' :: natDigits n.natAbs else natDigits n.natAbs
    | JVal.str s => '\'' :: s ++ ['\'']
    | JVal.arr _ => "[...]".toList
    | JVal.obj _ => "\x7b...\x7d".toList
  joinSepStrs (sep : Str) : List Str → Str
    | [] => []
    | [x] => x
    | x :: xs => x ++ sep ++ joinSepStrs sep xs

/-- `sep.join(items)` over already-string items. -/
def strJoin (sep : Str) : List Str → Str
  | [] => []
  | [x] => x
  | x :: xs => x ++ sep ++ strJoin sep xs

/-- Python `sep.join(values)` over dynamic values: every item must be a
    string, otherwise `TypeError` is raised. -/
def pyJoin (sep : Str) (items : List JVal) : Except Unit Str := do
  let strs ← items.mapM (fun v =>
    match v with
    | JVal.str s => Except.ok s
    | _ => Except.error ())
  pure (strJoin sep strs)

/-- JSON whitespace accepted between tokens by `json.loads`. -/
def isJsonWs (c : Char) : Bool :=
  c == ' ' || c == '\t' || c == '\n' || c == '\r'

def skipWs (s : Str) : Str := s.dropWhile isJsonWs

def isDigitChar (c : Char) : Bool := 48 ≤ c.toNat && c.toNat ≤ 57

def digitVal (c : Char) : Nat := c.toNat - 48

/-- Consume leading decimal digits, accumulating their value. -/
def takeNatDigits : Str → Nat → Nat × Str
  | [], acc => (acc, [])
  | c :: rest, acc =>
    if isDigitChar c then takeNatDigits rest (acc * 10 + digitVal c)
    else (acc, c :: rest)

/-- Single-character JSON string escapes (`\uXXXX` is not modelled). -/
def escChar (c : Char) : Option Char :=
  if c = '"' then some '"'
  else if c = '\\' then some '\\'
  else if c = '/' then some '/'
  else if c = 'n' then some '\n'
  else if c = 't' then some '\t'
  else if c = 'r' then some '\r'
  else if c = 'b' then some '\x08'
  else if c = 'f' then some '\x0c'
  else none

/-- Body of a JSON string after the opening quote: returns the decoded
    characters and the remainder after the closing quote. -/
def parseStrBody : Str → Option (Str × Str)
  | [] => none
  | c :: rest =>
    if c = '"' then some ([], rest)
    else if c = '\\' then
      match rest with
      | [] => none
      | e :: rest2 =>
        match escChar e with
        | none => none
        | some d =>
          match parseStrBody rest2 with
          | none => none
          | some (s, r) => some (d :: s, r)
    else
      match parseStrBody rest with
      | none => none
      | some (s, r) => some (c :: s, r)

mutual

/-- Fuel-indexed recursive-descent parser for one JSON value. -/
def parseVal : Nat → Str → Option (JVal × Str)
  | 0, _ => none
  | fuel + 1, s =>
    match skipWs s with
    | [] => none
    | c :: rest =>
      if c = 'n' then
        if ("ull".toList).isPrefixOf rest then some (JVal.null, rest.drop 3)
        else none
      else if c = 't' then
        if ("rue".toList).isPrefixOf rest then some (JVal.bool true, rest.drop 3)
        else none
      else if c = 'f' then
        if ("alse".toList).isPrefixOf rest then some (JVal.bool false, rest.drop 4)
        else none
      else if c = '-' then
        match rest with
        | d :: _ =>
          if isDigitChar d then
            let (n, r) := takeNatDigits rest 0
            some (JVal.int (-(n : Int)), r)
          else none
        | [] => none
      else if isDigitChar c then
        let (n, r) := takeNatDigits (c :: rest) 0
        some (JVal.int (n : Int), r)
      else if c = '"' then do
        let (s, r) ← parseStrBody rest
        pure (JVal.str s, r)
      else if c = '[' then
        match skipWs rest with
        | ']' :: r => some (JVal.arr [], r)
        | _ => do
          let (xs, r) ← parseArrItems fuel rest
          pure (JVal.arr xs, r)
      else if c = '\x7b' then
        match skipWs rest with
        | '\x7d' :: r => some (JVal.obj [], r)
        | _ => do
          let (kvs, r) ← parseObjItems fuel [] rest
          pure (JVal.obj kvs, r)
      else none

/-- Comma-separated values up to the closing bracket. -/
def parseArrItems : Nat → Str → Option (List JVal × Str)
  | 0, _ => none
  | fuel + 1, s => do
    let (v, r) ← parseVal fuel s
    match skipWs r with
    | ',' :: r2 => do
      let (xs, r3) ← parseArrItems fuel r2
      pure (v :: xs, r3)
    | ']' :: r2 => pure ([v], r2)
    | _ => none

/-- Comma-separated `"key": value` pairs up to the closing brace;
    duplicate keys overwrite in place, as Python dicts do. -/
def parseObjItems : Nat → List (JVal × JVal) → Str → Option (List (JVal × JVal) × Str)
  | 0, _, _ => none
  | fuel + 1, acc, s =>
    match skipWs s with
    | '"' :: rest => do
      let (k, r) ← parseStrBody rest
      match skipWs r with
      | ':' :: r2 => do
        let (v, r3) ← parseVal fuel r2
        let acc2 := dictSet acc (JVal.str k) v
        match skipWs r3 with
        | ',' :: r4 => parseObjItems fuel acc2 r4
        | '\x7d' :: r4 => pure (acc2, r4)
        | _ => none
      | _ => none
    | _ => none

end

/-- `json.loads` on the embedded fragment: parse one value and require
    only whitespace to remain. -/
def json_loads (s : Str) : Option JVal :=
  match parseVal (2 * s.length + 2) s with
  | some (v, r) => if (skipWs r).isEmpty then some v else none
  | none => none

/-- A timezone-aware Python `datetime` in UTC, as produced by
    `datetime.now(timezone.utc)`. -/
structure PyDateTime where
  year : Nat
  month : Nat
  day : Nat
  hour : Nat
  minute : Nat
  second : Nat
  microsecond : Nat
deriving Repr, DecidableEq

/-- Field ranges of a representable `datetime` (day-in-month precision
    beyond `1..31` is irrelevant to the formatting lemmas). -/
def PyDateTime.ValidDT (t : PyDateTime) : Prop :=
  1 ≤ t.year ∧ t.year ≤ 9999 ∧ 1 ≤ t.month ∧ t.month ≤ 12 ∧
  1 ≤ t.day ∧ t.day ≤ 31 ∧ t.hour ≤ 23 ∧ t.minute ≤ 59 ∧
  t.second ≤ 59 ∧ t.microsecond ≤ 999999

instance (t : PyDateTime) : Decidable t.ValidDT := by
  unfold PyDateTime.ValidDT
  infer_instance

/-- Zero-padded fixed-width decimal rendering, most significant digit
    first: `pad k n` has exactly `k` digits. -/
def pad : Nat → Nat → Str
  | 0, _ => []
  | k + 1, n => Nat.digitChar (n / 10 ^ k) :: pad k (n % 10 ^ k)

/-- `datetime.isoformat()` for a UTC datetime: the `.ffffff` part is
    omitted exactly when the microsecond field is zero, and the offset
    renders as `+00:00`. -/
def isoformat (t : PyDateTime) : Str :=
  pad 4 t.year ++ ('-' :: (pad 2 t.month ++ ('-' :: (pad 2 t.day ++
  ('T' :: (pad 2 t.hour ++ (':' :: (pad 2 t.minute ++ (':' :: (pad 2 t.second ++
  ((if t.microsecond = 0 then [] else '.' :: pad 6 t.microsecond) ++
  "+00:00".toList)))))))))))

/-- Consume exactly `k` decimal digits. -/
def parseDigitsK : Nat → Str → Nat → Option (Nat × Str)
  | 0, s, acc => some (acc, s)
  | k + 1, [], _ => none
  | k + 1, c :: rest, acc =>
    if isDigitChar c then parseDigitsK k rest (acc * 10 + digitVal c)
    else none

/-- The optional `.ffffff` fraction: six digits after a dot, otherwise
    zero microseconds and the input unchanged. -/
def parseMicro (s : Str) : Option (Nat × Str) :=
  match s with
  | '.' :: s2 => parseDigitsK 6 s2 0
  | _ => some (0, s)

/-- `datetime.fromisoformat` restricted to the exact shapes this service
    writes (`YYYY-MM-DDTHH:MM:SS[.ffffff]+00:00`); anything else raises,
    which the model reports as `none`. -/
def fromisoformat (s : Str) : Option PyDateTime := do
  let (y, s) ← parseDigitsK 4 s 0
  match s with
  | '-' :: s => do
    let (mo, s) ← parseDigitsK 2 s 0
    match s with
    | '-' :: s => do
      let (d, s) ← parseDigitsK 2 s 0
      match s with
      | 'T' :: s => do
        let (h, s) ← parseDigitsK 2 s 0
        match s with
        | ':' :: s => do
          let (mi, s) ← parseDigitsK 2 s 0
          match s with
          | ':' :: s => do
            let (sec, s) ← parseDigitsK 2 s 0
            let (us, s) ← parseMicro s
            if s = "+00:00".toList then
              let t : PyDateTime :=
                ⟨y, mo, d, h, mi, sec, us⟩
              if t.ValidDT then some t else none
            else none
          | _ => none
        | _ => none
      | _ => none
    | _ => none
  | _ => none

/-- Byte-wise (codepoint) string comparison, `x ≤ y`; this is the order
    the document store uses for string sort keys. -/
def strLe : Str → Str → Bool
  | [], _ => true
  | _ :: _, [] => false
  | a :: as, b :: bs =>
    if a.toNat = b.toNat then strLe as bs else decide (a.toNat < b.toNat)

/-- Chronological comparison of datetime values: lexicographic on
    (year, month, day, hour, minute, second, microsecond). -/
def dtLeB (a b : PyDateTime) : Bool :=
  if a.year ≠ b.year then decide (a.year < b.year)
  else if a.month ≠ b.month then decide (a.month < b.month)
  else if a.day ≠ b.day then decide (a.day < b.day)
  else if a.hour ≠ b.hour then decide (a.hour < b.hour)
  else if a.minute ≠ b.minute then decide (a.minute < b.minute)
  else if a.second ≠ b.second then decide (a.second < b.second)
  else decide (a.microsecond ≤ b.microsecond)

/-- Python exceptions as the handler's boundary sees them: a FastAPI
    `HTTPException` (re-raised unchanged) or any other exception
    (turned into a generic 500). -/
inductive PyErr where
  | httpExc (status : Nat) (detail : Str)
  | exc

/-- Lift a plain Python exception into the boundary error type. -/
def asExc {α : Type} : Except Unit α → Except PyErr α
  | Except.ok a => Except.ok a
  | Except.error _ => Except.error PyErr.exc

/- Dictionary keys used by the service. -/

def nameKeyJ : JVal := JVal.str ("name".toList)
def loginKeyJ : JVal := JVal.str ("login".toList)
def bioKeyJ : JVal := JVal.str ("bio".toList)
def locationKeyJ : JVal := JVal.str ("location".toList)
def avatarKeyJ : JVal := JVal.str ("avatar_url".toList)
def descriptionKeyJ : JVal := JVal.str ("description".toList)
def languageKeyJ : JVal := JVal.str ("language".toList)
def stargazersKeyJ : JVal := JVal.str ("stargazers_count".toList)
def forksKeyJ : JVal := JVal.str ("forks_count".toList)
def profileKeyJ : JVal := JVal.str ("profile".toList)
def repositoriesKeyJ : JVal := JVal.str ("repositories".toList)
def statsKeyJ : JVal := JVal.str ("stats".toList)
def publicReposKeyJ : JVal := JVal.str ("public_repos".toList)
def followersKeyJ : JVal := JVal.str ("followers".toList)
def followingKeyJ : JVal := JVal.str ("following".toList)
def totalStarsKeyJ : JVal := JVal.str ("total_stars".toList)
def totalForksKeyJ : JVal := JVal.str ("total_forks".toList)
def languagesKeyJ : JVal := JVal.str ("languages".toList)
def reposWithReadmeKeyJ : JVal := JVal.str ("repos_with_readme".toList)
def reposWithDescriptionKeyJ : JVal := JVal.str ("repos_with_description".toList)
def topReposKeyJ : JVal := JVal.str ("top_repos".toList)
def scoreBreakdownKeyJ : JVal := JVal.str ("score_breakdown".toList)
def strengthsKeyJ : JVal := JVal.str ("strengths".toList)
def weaknessesKeyJ : JVal := JVal.str ("weaknesses".toList)
def recommendationsKeyJ : JVal := JVal.str ("recommendations".toList)
def documentationKeyJ : JVal := JVal.str ("documentation".toList)
def codeStructureKeyJ : JVal := JVal.str ("code_structure".toList)
def activityConsistencyKeyJ : JVal := JVal.str ("activity_consistency".toList)
def repositoryOrganizationKeyJ : JVal := JVal.str ("repository_organization".toList)
def projectImpactKeyJ : JVal := JVal.str ("project_impact".toList)
def technicalDepthKeyJ : JVal := JVal.str ("technical_depth".toList)

/-- `GitHubAnalyzer.get_user_profile`: a 404 from the hosting API raises
    `HTTPException(404, "GitHub user not found")`; any other transport
    or HTTP error is caught and re-raised as a 500; otherwise the JSON
    body is returned.  `none` models a transport failure. -/
def get_user_profile (resp : Option (Nat × JVal)) : Except PyErr JVal :=
  match resp with
  | none => Except.error (PyErr.httpExc 500 ("Failed to fetch GitHub profile".toList))
  | some (status, body) =>
    if status = 404 then
      Except.error (PyErr.httpExc 404 ("GitHub user not found".toList))
    else if 400 ≤ status then
      Except.error (PyErr.httpExc 500 ("Failed to fetch GitHub profile".toList))
    else Except.ok body

/-- `GitHubAnalyzer.get_repositories`: any transport or HTTP error
    degrades to an empty list; otherwise the JSON body is returned. -/
def get_repositories (resp : Option (Nat × JVal)) : JVal :=
  match resp with
  | none => JVal.arr []
  | some (status, body) => if 400 ≤ status then JVal.arr [] else body

/-- `sum(repo.get(key, 0) for repo in repos)`. -/
def sumByKey (key : JVal) (elems : List JVal) : Except Unit Int :=
  elems.foldlM (fun acc repo => do
    let v ← pyGetD repo key (JVal.int 0)
    pyAddInt acc v) 0

/-- One iteration of the top-10 repository loop (`analyze_profile`
    lines 133-142): tally the primary language, count a description,
    fetch the README and count it when the text is truthy.  The
    accumulated state is `(languages, repos_with_readme,
    repos_with_description)`. -/
def repoStep (oracle : JVal → Option Str)
    (st : List (JVal × JVal) × Nat × Nat) (repo : JVal) :
    Except Unit (List (JVal × JVal) × Nat × Nat) := do
  let (languages, withReadme, withDesc) := st
  let langV ← pyGetD repo languageKeyJ JVal.null
  let languages2 ←
    if pyTruthy langV then do
      let langK ← jget repo languageKeyJ
      if pyHashable langK then
        match (dictFind languages langK).getD (JVal.int 0) with
        | JVal.int n => Except.ok (dictSet languages langK (JVal.int (n + 1)))
        | JVal.bool b =>
          Except.ok (dictSet languages langK (JVal.int ((if b then 1 else 0) + 1)))
        | _ => Except.error ()
      else Except.error ()
    else Except.ok languages
  let descV ← pyGetD repo descriptionKeyJ JVal.null
  let withDesc2 := if pyTruthy descV then withDesc + 1 else withDesc
  let nameV ← jget repo nameKeyJ
  let withReadme2 :=
    match oracle nameV with
    | some txt => if txt.isEmpty then withReadme else withReadme + 1
    | none => withReadme
  pure (languages2, withReadme2, withDesc2)

/-- `GitHubAnalyzer.analyze_profile`: fetch profile and repositories,
    total stars and forks over ALL repositories, run the top-10 loop,
    and assemble the summary object.  `oracle` gives each repository's
    `get_readme` outcome, keyed by its name value. -/
def analyze_profile (profileResp reposResp : Option (Nat × JVal))
    (oracle : JVal → Option Str) : Except PyErr JVal := do
  let profile ← get_user_profile profileResp
  let repos := get_repositories reposResp
  let elems ← asExc (pyIter repos)
  let total_stars ← asExc (sumByKey stargazersKeyJ elems)
  let total_forks ← asExc (sumByKey forksKeyJ elems)
  let top10 ← asExc (pySlice repos 10)
  let topElems ← asExc (pyIter top10)
  let st ← asExc (topElems.foldlM (repoStep oracle) ([], 0, 0))
  let pr ← asExc (pyGetD profile publicReposKeyJ (JVal.int 0))
  let fo ← asExc (pyGetD profile followersKeyJ (JVal.int 0))
  let fg ← asExc (pyGetD profile followingKeyJ (JVal.int 0))
  pure (JVal.obj [
    (profileKeyJ, profile),
    (repositoriesKeyJ, repos),
    (statsKeyJ, JVal.obj [
      (publicReposKeyJ, pr),
      (followersKeyJ, fo),
      (followingKeyJ, fg),
      (totalStarsKeyJ, JVal.int total_stars),
      (totalForksKeyJ, JVal.int total_forks),
      (languagesKeyJ, JVal.obj st.1),
      (reposWithReadmeKeyJ, JVal.int st.2.1),
      (reposWithDescriptionKeyJ, JVal.int st.2.2),
      (topReposKeyJ, top10)])])

def fenceJson : Str := "```json".toList

def fenceBare : Str := "```".toList

/-- The fence-stripping in `AIAnalyzer.generate_analysis` (lines
    227-233): strip the response, take
    `split("```json")[1].split("```")[0]` when a ```json fence is
    present, else `split("```")[1].split("```")[0]` when a bare fence
    is present, else the text itself; the result is stripped again
    before `json.loads`. -/
def handedText (response : Str) : Str :=
  let rt := pyStrip response
  let rt2 :=
    if containsSub fenceJson rt then
      (splitOnSub fenceBare ((splitOnSub fenceJson rt).getD 1 [])).getD 0 []
    else if containsSub fenceBare rt then
      (splitOnSub fenceBare ((splitOnSub fenceBare rt).getD 1 [])).getD 0 []
    else rt
  pyStrip rt2

/-- `AIAnalyzer._default_analysis`: the fixed fallback payload. -/
def default_analysis : JVal :=
  JVal.obj [
    (scoreBreakdownKeyJ, JVal.obj [
      (documentationKeyJ, JVal.int 60),
      (codeStructureKeyJ, JVal.int 65),
      (activityConsistencyKeyJ, JVal.int 55),
      (repositoryOrganizationKeyJ, JVal.int 60),
      (projectImpactKeyJ, JVal.int 50),
      (technicalDepthKeyJ, JVal.int 60)]),
    (strengthsKeyJ, JVal.arr [
      JVal.str ("Active GitHub presence".toList),
      JVal.str ("Multiple programming languages".toList),
      JVal.str ("Public repositories available".toList)]),
    (weaknessesKeyJ, JVal.arr [
      JVal.str ("Analysis incomplete - AI service temporarily unavailable".toList),
      JVal.str ("Consider adding more detailed README files".toList),
      JVal.str ("Enhance project descriptions".toList)]),
    (recommendationsKeyJ, JVal.arr [
      JVal.str ("Add comprehensive README files to all repositories".toList),
      JVal.str ("Include project setup instructions and usage examples".toList),
      JVal.str ("Write detailed commit messages".toList),
      JVal.str ("Contribute to open source projects".toList),
      JVal.str ("Pin your best projects to your profile".toList)])]

/-- One `- name: description (⭐ stars, Language: lang)` line of
    `AIAnalyzer._format_repos`.  Raises when the entry lacks a `name`
    or is not a dict. -/
def formatRepoLine (repo : JVal) : Except Unit Str := do
  let nameV ← jget repo nameKeyJ
  let descV ← pyGetD repo descriptionKeyJ (JVal.str ("No description".toList))
  let starsV ← pyGetD repo stargazersKeyJ (JVal.int 0)
  let langV ← pyGetD repo languageKeyJ (JVal.str ("N/A".toList))
  pure (("- ".toList) ++ pyStr nameV ++ (": ".toList) ++ pyStr descV ++
    (" (⭐ ".toList) ++ pyStr starsV ++ (", Language: ".toList) ++
    pyStr langV ++ (")".toList))

/-- `AIAnalyzer._format_repos`: one line per repository,
    newline-joined. -/
def format_repos (repos : JVal) : Except Unit Str := do
  let elems ← pyIter repos
  let lines ← elems.mapM formatRepoLine
  pure (strJoin ("\n".toList) lines)

/-- The prompt construction of `generate_analysis` (lines 174-212).
    It runs BEFORE the `try:` block, so any failure here propagates out
    of `generate_analysis`.  The interpolated lookups are modelled
    faithfully; the surrounding fixed text is abbreviated (its content
    affects nothing observable). -/
def buildPrompt (profile stats : JVal) : Except Unit Str := do
  let loginV ← pyGetD profile loginKeyJ JVal.null
  let nameV ← pyGetD profile nameKeyJ loginV
  let prV ← jget stats publicReposKeyJ
  let foV ← jget stats followersKeyJ
  let tsV ← jget stats totalStarsKeyJ
  let tfV ← jget stats totalForksKeyJ
  let langsV ← jget stats languagesKeyJ
  let langKeys ← (match langsV with
    | JVal.obj kvs => Except.ok (kvs.map (·.1))
    | _ => Except.error ())
  let langsTxt ← pyJoin (", ".toList) langKeys
  let rdV ← jget stats reposWithReadmeKeyJ
  let rdescV ← jget stats reposWithDescriptionKeyJ
  let bioV ← pyGetD profile bioKeyJ (JVal.str ("Not provided".toList))
  let locV ← pyGetD profile locationKeyJ (JVal.str ("Not provided".toList))
  let topV ← jget stats topReposKeyJ
  let top5 ← pySlice topV 5
  let reposTxt ← format_repos top5
  pure (("You are an expert technical recruiter analyzing a GitHub profile.\n- Username: ".toList) ++
    pyStr nameV ++ ("\n- Public Repos: ".toList) ++ pyStr prV ++
    ("\n- Followers: ".toList) ++ pyStr foV ++
    ("\n- Total Stars: ".toList) ++ pyStr tsV ++
    ("\n- Total Forks: ".toList) ++ pyStr tfV ++
    ("\n- Languages Used: ".toList) ++ langsTxt ++
    ("\n- Repos with README: ".toList) ++ pyStr rdV ++
    (" out of top 10\n- Repos with Description: ".toList) ++ pyStr rdescV ++
    (" out of top 10\n- Bio: ".toList) ++ pyStr bioV ++
    ("\n- Location: ".toList) ++ pyStr locV ++
    ("\n\nTop Repositories:\n".toList) ++ reposTxt ++
    ("\n\nProvide analysis in this EXACT JSON format: \x7b...\x7d".toList))

/-- `AIAnalyzer.generate_analysis`: bind `stats` and `profile`, build
    the prompt (all failable, outside the `try:`), then perform the
    external call and parse inside the `try:` — any exception there is
    caught and replaced by the default payload.  `llm` is the outcome
    of `chat.send_message`: the raw response text, or an exception. -/
def generate_analysis (github_data : JVal) (llm : Except Unit Str) :
    Except PyErr JVal := do
  let stats ← asExc (jget github_data statsKeyJ)
  let profile ← asExc (jget github_data profileKeyJ)
  let _prompt ← asExc (buildPrompt profile stats)
  match llm with
  | Except.error _ => pure default_analysis
  | Except.ok text =>
    match json_loads (handedText text) with
    | some v => pure v
    | none => pure default_analysis

def hostSub : Str := "github.com/".toList

/-- Username derivation (handler lines 297-299): strip the request
    field; when it contains `github.com/`, take the last chunk of the
    split and trim slashes from its ends. -/
def deriveUsername (github_url : Str) : Str :=
  let username := pyStrip github_url
  if containsSub hostSub username then
    pyStripChars ['/'] ((splitOnSub hostSub username).getLastD [])
  else username

/-- The `ScoreBreakdown` pydantic model: six integer fields. -/
structure ScoreBreakdown where
  documentation : Int
  code_structure : Int
  activity_consistency : Int
  repository_organization : Int
  project_impact : Int
  technical_depth : Int
deriving Repr, DecidableEq

/-- pydantic validation of one `int` field: accepts integers, rejects
    booleans and everything else carried by the embedding. -/
def validateIntField (v : JVal) : Except PyErr Int :=
  match v with
  | JVal.int n => Except.ok n
  | _ => Except.error PyErr.exc

/-- `ScoreBreakdown(**breakdown)`: `**` requires a dict with string
    keys; missing fields are a validation error, extra fields are
    ignored (pydantic's default). -/
def scoreBreakdownOf (breakdown : JVal) : Except PyErr ScoreBreakdown :=
  match breakdown with
  | JVal.obj kvs =>
    if kvs.all (fun kv => match kv.1 with | JVal.str _ => true | _ => false) then do
      let field := fun (k : JVal) =>
        match dictFind kvs k with
        | some v => validateIntField v
        | none => Except.error PyErr.exc
      let d ← field documentationKeyJ
      let c ← field codeStructureKeyJ
      let a ← field activityConsistencyKeyJ
      let r ← field repositoryOrganizationKeyJ
      let p ← field projectImpactKeyJ
      let t ← field technicalDepthKeyJ
      pure ⟨d, c, a, r, p, t⟩
    else Except.error PyErr.exc
  | _ => Except.error PyErr.exc

/-- pydantic validation of a `List[str]` field. -/
def validateStrList (v : JVal) : Except PyErr (List Str) :=
  match v with
  | JVal.arr xs =>
    xs.mapM (fun x =>
      match x with
      | JVal.str s => Except.ok s
      | _ => Except.error PyErr.exc)
  | _ => Except.error PyErr.exc

/-- Handler lines 310-311: `breakdown = ai_analysis['score_breakdown']`
    then `overall_score = sum(breakdown.values()) // len(breakdown)`.
    Python `//` on integers is floor division (`Int.fdiv`); an empty
    dict would divide by zero and a non-dict has no `.values()`. -/
def computeOverallScore (ai_analysis : JVal) : Except PyErr Int := do
  let breakdown ← asExc (jget ai_analysis scoreBreakdownKeyJ)
  match breakdown with
  | JVal.obj kvs => do
    let s ← asExc ((kvs.map (·.2)).foldlM pyAddInt 0)
    if kvs.length = 0 then Except.error PyErr.exc
    else Except.ok (Int.fdiv s (kvs.length : Int))
  | _ => Except.error PyErr.exc

/-- The in-memory `Analysis` record the handler constructs. -/
structure AnalysisOut where
  id : Str
  username : Str
  overall_score : Int
  score_breakdown : ScoreBreakdown
  strengths : List Str
  weaknesses : List Str
  recommendations : List Str
  profile_data : JVal
  timestamp : PyDateTime

/-- A persisted document: `model_dump()` of an `Analysis` with the
    timestamp replaced by its ISO-8601 string (handler line 334). -/
structure StoredDoc where
  id : Str
  username : Str
  overall_score : Int
  score_breakdown : ScoreBreakdown
  strengths : List Str
  weaknesses : List Str
  recommendations : List Str
  profile_data : JVal
  timestamp : Str

/-- Serialization performed before `insert_one`. -/
def serializeDoc (a : AnalysisOut) : StoredDoc :=
  ⟨a.id, a.username, a.overall_score, a.score_breakdown, a.strengths,
   a.weaknesses, a.recommendations, a.profile_data, isoformat a.timestamp⟩

/-- Outcomes of the external collaborators for one request, plus the
    generated id and construction-time timestamp. -/
structure Env where
  profileResp : Option (Nat × JVal)
  reposResp : Option (Nat × JVal)
  readmeOracle : JVal → Option Str
  llmResp : Except Unit Str
  newId : Str
  now : PyDateTime

/-- The HTTP outcome of `POST /api/analyze`. -/
inductive HandlerResult where
  | ok (a : AnalysisOut)
  | err (status : Nat) (detail : Str)

/-- `analyze_github_profile` (`POST /api/analyze`): derive the
    username, run the pipeline, persist on success; an `HTTPException`
    passes through unchanged and any other exception becomes a 500.
    Returns the HTTP outcome and the store after the request. -/
def analyze_github_profile (github_url : Str) (env : Env)
    (store : List StoredDoc) : HandlerResult × List StoredDoc :=
  let username := deriveUsername github_url
  let r : Except PyErr (AnalysisOut × StoredDoc) := do
    let github_data ← analyze_profile env.profileResp env.reposResp env.readmeOracle
    let ai_analysis ← generate_analysis github_data env.llmResp
    let overall_score ← computeOverallScore ai_analysis
    let breakdown ← asExc (jget ai_analysis scoreBreakdownKeyJ)
    let sb ← scoreBreakdownOf breakdown
    let strengthsV ← asExc (jget ai_analysis strengthsKeyJ)
    let strengths ← validateStrList strengthsV
    let weaknessesV ← asExc (jget ai_analysis weaknessesKeyJ)
    let weaknesses ← validateStrList weaknessesV
    let recommendationsV ← asExc (jget ai_analysis recommendationsKeyJ)
    let recommendations ← validateStrList recommendationsV
    let profileV ← asExc (jget github_data profileKeyJ)
    let statsV ← asExc (jget github_data statsKeyJ)
    let nameV ← asExc (pyGetD profileV nameKeyJ (JVal.str username))
    let bioV ← asExc (pyGetD profileV bioKeyJ (JVal.str []))
    let avatarV ← asExc (pyGetD profileV avatarKeyJ (JVal.str []))
    let prV ← asExc (jget statsV publicReposKeyJ)
    let foV ← asExc (jget statsV followersKeyJ)
    let tsV ← asExc (jget statsV totalStarsKeyJ)
    let langsV ← asExc (jget statsV languagesKeyJ)
    let profile_data := JVal.obj [
      (nameKeyJ, nameV), (bioKeyJ, bioV), (avatarKeyJ, avatarV),
      (publicReposKeyJ, prV), (followersKeyJ, foV),
      (totalStarsKeyJ, tsV), (languagesKeyJ, langsV)]
    let a : AnalysisOut :=
      ⟨env.newId, username, overall_score, sb, strengths, weaknesses,
       recommendations, profile_data, env.now⟩
    pure (a, serializeDoc a)
  match r with
  | Except.ok (a, doc) => (HandlerResult.ok a, store ++ [doc])
  | Except.error (PyErr.httpExc s d) => (HandlerResult.err s d, store)
  | Except.error PyErr.exc =>
    (HandlerResult.err 500 ("Analysis failed".toList), store)

/-- The document store's descending sort key on documents: newest
    first, by byte-wise comparison of the stored timestamp strings
    (how the store compares string sort keys). -/
def docGe (a b : StoredDoc) : Prop := strLe b.timestamp a.timestamp = true

instance : DecidableRel docGe := fun a b => by
  unfold docGe
  infer_instance

/-- `fromisoformat` applied to a stored document (handler lines
    353-355). -/
def deserializeDoc (d : StoredDoc) : Option AnalysisOut :=
  (fromisoformat d.timestamp).map (fun t =>
    ⟨d.id, d.username, d.overall_score, d.score_breakdown, d.strengths,
     d.weaknesses, d.recommendations, d.profile_data, t⟩)

/-- The timestamp-parsing loop of `get_recent_analyses`: a parse
    failure raises (caught as a 500). -/
def deserializeAll : List StoredDoc → Except Unit (List AnalysisOut)
  | [] => Except.ok []
  | d :: ds =>
    match deserializeDoc d with
    | none => Except.error ()
    | some r => (deserializeAll ds).map (r :: ·)

/-- `get_recent_analyses` (`GET /api/analyses`): sort by timestamp
    descending, keep at most 10, parse each stored ISO-8601 timestamp
    back into a datetime.  An error models the endpoint's 500. -/
def get_recent_analyses (store : List StoredDoc) :
    Except Unit (List AnalysisOut) :=
  deserializeAll ((List.insertionSort docGe store).take 10)

/-! ### Lemmas about substring search and splitting -/

theorem findSub_isPrefixOf {sep s : Str} {i : Nat}
    (h : findSub sep s = some i) : sep.isPrefixOf (s.drop i) := by
  induction s generalizing i with
  | nil =>
    unfold findSub at h
    by_cases hp : sep.isPrefixOf ([] : Str)
    · simp [hp] at h
      simpa [← h] using hp
    · simp [hp] at h
  | cons c rest ih =>
    unfold findSub at h
    by_cases hp : sep.isPrefixOf (c :: rest)
    · simp [hp] at h
      simpa [← h] using hp
    · simp [hp] at h
      obtain ⟨j, hj, rfl⟩ := h
      simpa using ih hj

theorem findSub_min {sep s : Str} {i : Nat} (h : findSub sep s = some i) :
    ∀ j, j < i → ¬ sep.isPrefixOf (s.drop j) := by
  induction s generalizing i with
  | nil =>
    unfold findSub at h
    by_cases hp : sep.isPrefixOf ([] : Str)
    · simp [hp] at h
      omega
    · simp [hp] at h
  | cons c rest ih =>
    unfold findSub at h
    by_cases hp : sep.isPrefixOf (c :: rest)
    · simp [hp] at h
      omega
    · simp [hp] at h
      obtain ⟨j0, hj0, rfl⟩ := h
      intro j hj
      match j with
      | 0 => simpa using hp
      | j + 1 =>
        have := ih hj0 j (by omega)
        simpa using this

theorem findSub_take {sep s : Str} {i : Nat} (hsep : sep ≠ [])
    (h : findSub sep s = some i) : findSub sep (s.take i) = none := by
  by_contra hne
  obtain ⟨j, hj⟩ := Option.ne_none_iff_exists'.mp hne
  have hpre : sep.isPrefixOf ((s.take i).drop j) := findSub_isPrefixOf hj
  have hlen := findSub_le hj
  have hsl : (s.take i).length ≤ i := by simp
  have hspos : 0 < sep.length := List.length_pos.mpr hsep
  have hji : j < i := by omega
  have hdt : (s.take i).drop j = (s.drop j).take (i - j) := by
    rw [List.drop_take]
  have hpre2 : sep <+: (s.drop j).take (i - j) := by
    rw [← hdt]
    exact List.isPrefixOf_iff_prefix.mp hpre
  have hpre3 : sep <+: s.drop j :=
    hpre2.trans (List.take_prefix _ _)
  exact findSub_min h j hji (List.isPrefixOf_iff_prefix.mpr hpre3)

theorem splitOnSubGo_ne_nil (sep : Str) (fuel : Nat) (s : Str) :
    splitOnSubGo sep fuel s ≠ [] := by
  cases fuel with
  | zero => simp [splitOnSubGo]
  | succ f =>
    rw [splitOnSubGo]
    cases h : findSub sep s <;> simp

theorem splitOnSub_ne_nil (sep s : Str) : splitOnSub sep s ≠ [] := by
  rw [splitOnSub]
  split
  · simp
  · exact splitOnSubGo_ne_nil _ _ _

theorem splitOnSubGo_headD (sep : Str) (fuel : Nat) (s : Str)
    (hf : 0 < fuel) : (splitOnSubGo sep fuel s).getD 0 [] = upToFirst sep s := by
  cases fuel with
  | zero => omega
  | succ f =>
    rw [splitOnSubGo]
    unfold upToFirst
    cases h : findSub sep s <;> simp

theorem headD_splitOnSub {sep : Str} (hsep : sep ≠ []) (s : Str) :
    (splitOnSub sep s).getD 0 [] = upToFirst sep s := by
  rw [splitOnSub, if_neg hsep]
  exact splitOnSubGo_headD _ _ _ (by omega)

theorem getD_one_splitOnSub {sep s : Str} (hsep : sep ≠ [])
    (h : containsSub sep s = true) :
    (splitOnSub sep s).getD 1 [] = upToFirst sep (afterFirst sep s) := by
  unfold containsSub at h
  obtain ⟨i, hi⟩ := Option.isSome_iff_exists.mp h
  have hAF : afterFirst sep s = s.drop (i + sep.length) := by
    unfold afterFirst
    rw [hi]
  have hle := findSub_le hi
  have hpos : 0 < sep.length := List.length_pos.mpr hsep
  rw [splitOnSub, if_neg hsep]
  rw [splitOnSubGo, hi]
  simp only [List.getD_cons_succ]
  rw [hAF]
  exact splitOnSubGo_headD _ _ _ (by omega)

theorem splitOnSubGo_getLastD (sep : Str) (hsep : sep ≠ []) :
    ∀ fuel s, s.length < fuel →
      (splitOnSubGo sep fuel s).getLastD [] = afterLastGo sep fuel s := by
  intro fuel
  induction fuel with
  | zero =>
    intro s h
    omega
  | succ f ih =>
    intro s hlen
    rw [splitOnSubGo, afterLastGo]
    cases h : findSub sep s with
    | none => simp
    | some i =>
      dsimp only
      have hle := findSub_le h
      have hpos : 0 < sep.length := List.length_pos.mpr hsep
      have hrec := ih (s.drop (i + sep.length)) (by simp; omega)
      rw [← hrec]
      have hne := splitOnSubGo_ne_nil sep f (s.drop (i + sep.length))
      rw [List.getLastD_cons]
      rw [List.getLastD_eq_getLast?, List.getLastD_eq_getLast?]
      obtain ⟨x, xs, hxx⟩ := List.exists_cons_of_ne_nil hne
      rw [hxx]
      have hs : ((x :: xs).getLast?).isSome := by
        rw [List.getLast?_isSome]
        simp
      obtain ⟨y, hy⟩ := Option.isSome_iff_exists.mp hs
      simp [hy]

theorem getLastD_splitOnSub {sep : Str} (hsep : sep ≠ []) (s : Str) :
    (splitOnSub sep s).getLastD [] = afterLast sep s := by
  rw [splitOnSub, afterLast, if_neg hsep, if_neg hsep]
  exact splitOnSubGo_getLastD sep hsep _ s (by omega)

theorem upToFirst_upToFirst {sep : Str} (hsep : sep ≠ []) (s : Str) :
    upToFirst sep (upToFirst sep s) = upToFirst sep s := by
  unfold upToFirst
  cases h : findSub sep s with
  | none => rw [h]
  | some i => rw [findSub_take hsep h]

/-! ### Specification-side definitions for the fence-stripping rule -/

/-- The selection rule exactly as the specification words it: with a
    ```json fence present, the content between the first ```json marker
    and the next ``` marker; else the first bare-fenced block; else the
    text itself. -/
def claimChoice (s : Str) : Str :=
  if containsSub fenceJson s then
    upToFirst fenceBare (afterFirst fenceJson s)
  else if containsSub fenceBare s then
    upToFirst fenceBare (afterFirst fenceBare s)
  else s

/-- The claim's description of the text handed to the JSON parser. -/
def claimHandedText (s : Str) : Str := pyStrip (claimChoice (pyStrip s))

/-- The amended selection rule the code actually implements: in the
    ```json case the segment after the first ```json marker is first
    truncated at the following ```json occurrence (the second chunk of
    the split) and only then truncated at its first bare ``` marker. -/
def amendedChoice (s : Str) : Str :=
  if containsSub fenceJson s then
    upToFirst fenceBare (upToFirst fenceJson (afterFirst fenceJson s))
  else if containsSub fenceBare s then
    upToFirst fenceBare (afterFirst fenceBare s)
  else s

theorem fenceJson_ne_nil : fenceJson ≠ [] := by decide

theorem fenceBare_ne_nil : fenceBare ≠ [] := by decide

/-- C5 (counterexample): on the response text `"```jsonA````json"` the
    code hands `"A`"` to the JSON parser — the second ```json-split
    chunk ends one character before the next bare ``` marker — while
    the claimed rule (content between the first ```json marker and the
    next ``` marker) selects `"A"`.  The two texts differ. -/
theorem handedText_claim_counterexample :
    handedText ("```jsonA````json".toList) = ("A`".toList) ∧
    claimHandedText ("```jsonA````json".toList) = ("A".toList) ∧
    ¬ (handedText ("```jsonA````json".toList) =
       claimHandedText ("```jsonA````json".toList)) :=
  ⟨rfl, rfl, by decide⟩

/-- C5 (as amended): for every response text, the text handed to the
    JSON parser is the whitespace-stripped result of: if a ```json
    fence is present, the segment after the first ```json marker,
    truncated at the following ```json occurrence and then at its first
    bare ``` marker; otherwise, with a bare ``` fence present, the
    content of the first bare-fenced block; otherwise the stripped raw
    text itself. -/
theorem handedText_amended_spec (s : Str) :
    handedText s = pyStrip (amendedChoice (pyStrip s)) := by
  unfold handedText amendedChoice
  by_cases h1 : containsSub fenceJson (pyStrip s)
  · simp only [h1, if_true]
    rw [getD_one_splitOnSub fenceJson_ne_nil h1,
      headD_splitOnSub fenceBare_ne_nil]
  · by_cases h2 : containsSub fenceBare (pyStrip s)
    · simp only [h1, h2, if_false, if_true, Bool.false_eq_true]
      rw [getD_one_splitOnSub fenceBare_ne_nil h2,
        headD_splitOnSub fenceBare_ne_nil,
        upToFirst_upToFirst fenceBare_ne_nil]
    · simp only [h1, h2, if_false, Bool.false_eq_true]

theorem hostSub_ne_nil : hostSub ≠ [] := by decide

/-- C4: the derived username is the whitespace-stripped input when it
    does not contain `github.com/`, and otherwise the slash-trimmed
    text following the last `github.com/` occurrence; in particular
    `"https://github.com/octocat"` and `"octocat"` both derive
    `"octocat"`. -/
theorem deriveUsername_spec (g : Str) :
    deriveUsername g =
      (if containsSub hostSub (pyStrip g) then
        pyStripChars ['/'] (afterLast hostSub (pyStrip g))
      else pyStrip g) ∧
    deriveUsername ("https://github.com/octocat".toList) = ("octocat".toList) ∧
    deriveUsername ("octocat".toList) = ("octocat".toList) := by
  refine ⟨?_, rfl, rfl⟩
  unfold deriveUsername
  by_cases h : containsSub hostSub (pyStrip g)
  · simp only [h, if_true]
    rw [getLastD_splitOnSub hostSub_ne_nil]
  · simp only [h, if_false, Bool.false_eq_true]

/-- The six-field breakdown object in the order the service's prompt
    and default payload use. -/
def sixFieldBreakdown (d c a r p t : Int) : JVal :=
  JVal.obj [
    (documentationKeyJ, JVal.int d),
    (codeStructureKeyJ, JVal.int c),
    (activityConsistencyKeyJ, JVal.int a),
    (repositoryOrganizationKeyJ, JVal.int r),
    (projectImpactKeyJ, JVal.int p),
    (technicalDepthKeyJ, JVal.int t)]

/-- C1: for every scoring payload whose `score_breakdown` is exactly
    the six integer fields, the handler's overall score is
    `sum // 6 = Int.fdiv sum 6`, which is the floor of the rational
    `sum / 6`. -/
theorem computeOverallScore_six_fields (ai : JVal) (d c a r p t : Int)
    (h : jget ai scoreBreakdownKeyJ = Except.ok (sixFieldBreakdown d c a r p t)) :
    computeOverallScore ai = Except.ok (Int.fdiv (d + c + a + r + p + t) 6) ∧
    Int.fdiv (d + c + a + r + p + t) 6 = ⌊((d + c + a + r + p + t : Int) : ℚ) / (6 : ℚ)⌋ := by
  constructor
  · unfold computeOverallScore
    rw [h]
    show Except.ok (Int.fdiv (0 + d + c + a + r + p + t) 6) = _
    rw [Int.zero_add]
  · rw [Int.fdiv_eq_ediv _ (by norm_num)]
    have hfl := Rat.floor_intCast_div_natCast (d + c + a + r + p + t) 6
    simp at hfl ⊢
    rw [hfl]

/-- C1 witness: the claim's example — breakdown values
    60, 65, 55, 60, 50, 60 sum to 350 and yield overall score 58. -/
theorem computeOverallScore_six_fields_example :
    computeOverallScore (JVal.obj [(scoreBreakdownKeyJ,
        sixFieldBreakdown 60 65 55 60 50 60)])
      = Except.ok 58 ∧ (60 + 65 + 55 + 60 + 50 + 60 : Int) = 350 := by
  have h := computeOverallScore_six_fields
    (JVal.obj [(scoreBreakdownKeyJ, sixFieldBreakdown 60 65 55 60 50 60)])
    60 65 55 60 50 60 rfl
  refine ⟨?_, by norm_num⟩
  rw [h.1]
  rfl

/-- C3: when the hosting API answers 404 for the profile endpoint, the
    handler returns HTTP 404 with the "GitHub user not found" detail
    and the store is unchanged, whatever the rest of the environment
    holds. -/
theorem analyze_404_no_persist (github_url : Str) (body : JVal)
    (rr : Option (Nat × JVal)) (oracle : JVal → Option Str)
    (llm : Except Unit Str) (newId : Str) (now : PyDateTime)
    (store : List StoredDoc) :
    analyze_github_profile github_url
        ⟨some (404, body), rr, oracle, llm, newId, now⟩ store
      = (HandlerResult.err 404 ("GitHub user not found".toList), store) := rfl

theorem analyze_profile_ok_shape {pr rr : Option (Nat × JVal)}
    {oracle : JVal → Option Str} {s : JVal}
    (h : analyze_profile pr rr oracle = Except.ok s) :
    ∃ pkvs pv fv gv tstars tforks langs nread ndesc top10,
      s = JVal.obj [
        (profileKeyJ, JVal.obj pkvs),
        (repositoriesKeyJ, get_repositories rr),
        (statsKeyJ, JVal.obj [
          (publicReposKeyJ, pv),
          (followersKeyJ, fv),
          (followingKeyJ, gv),
          (totalStarsKeyJ, JVal.int tstars),
          (totalForksKeyJ, JVal.int tforks),
          (languagesKeyJ, JVal.obj langs),
          (reposWithReadmeKeyJ, JVal.int ((nread : Nat) : Int)),
          (reposWithDescriptionKeyJ, JVal.int ((ndesc : Nat) : Int)),
          (topReposKeyJ, top10)])] := by
  unfold analyze_profile at h
  cases hp : get_user_profile pr with
  | error e =>
    rw [hp] at h
    simp only [bind, Except.bind] at h
    exact Except.noConfusion h
  | ok profile =>
  rw [hp] at h
  simp only [bind, Except.bind] at h
  cases hi : pyIter (get_repositories rr) with
  | error e =>
    rw [hi] at h
    simp only [asExc, bind, Except.bind] at h
    exact Except.noConfusion h
  | ok elems =>
  rw [hi] at h
  simp only [asExc, bind, Except.bind] at h
  cases hst : sumByKey stargazersKeyJ elems with
  | error e =>
    rw [hst] at h
    simp only [asExc, bind, Except.bind] at h
    exact Except.noConfusion h
  | ok tstars =>
  rw [hst] at h
  simp only [asExc, bind, Except.bind] at h
  cases hsf : sumByKey forksKeyJ elems with
  | error e =>
    rw [hsf] at h
    simp only [asExc, bind, Except.bind] at h
    exact Except.noConfusion h
  | ok tforks =>
  rw [hsf] at h
  simp only [asExc, bind, Except.bind] at h
  cases hsl : pySlice (get_repositories rr) 10 with
  | error e =>
    rw [hsl] at h
    simp only [asExc, bind, Except.bind] at h
    exact Except.noConfusion h
  | ok top10 =>
  rw [hsl] at h
  simp only [asExc, bind, Except.bind] at h
  cases hti : pyIter top10 with
  | error e =>
    rw [hti] at h
    simp only [asExc, bind, Except.bind] at h
    exact Except.noConfusion h
  | ok topElems =>
  rw [hti] at h
  simp only [asExc, bind, Except.bind] at h
  cases hfl : topElems.foldlM (repoStep oracle) ([], 0, 0) with
  | error e =>
    rw [hfl] at h
    simp only [asExc, bind, Except.bind] at h
    exact Except.noConfusion h
  | ok st =>
  rw [hfl] at h
  simp only [asExc, bind, Except.bind] at h
  obtain ⟨langs, nread, ndesc⟩ := st
  cases profile with
  | obj pkvs =>
    simp only [pyGetD, asExc, bind, Except.bind, Functor.map, Except.map, pure, Except.pure] at h
    injection h with h2
    exact ⟨pkvs, _, _, _, tstars, tforks, langs, nread, ndesc, top10, h2.symm⟩
  | null => { simp only [pyGetD, asExc, bind, Except.bind] at h; exact Except.noConfusion h }
  | bool b => { simp only [pyGetD, asExc, bind, Except.bind] at h; exact Except.noConfusion h }
  | int n => { simp only [pyGetD, asExc, bind, Except.bind] at h; exact Except.noConfusion h }
  | str s2 => { simp only [pyGetD, asExc, bind, Except.bind] at h; exact Except.noConfusion h }
  | arr xs => { simp only [pyGetD, asExc, bind, Except.bind] at h; exact Except.noConfusion h }

/-- C2: when the scoring call raises or its response text fails to
    parse as JSON, the handler still answers HTTP 200: the payload is
    the fixed default, so the persisted record and the response carry
    the default breakdown (60, 65, 55, 60, 50, 60) and overall score
    58, and exactly one document is appended to the store. -/
theorem analyze_defaults_on_scoring_failure (github_url : Str) (env : Env)
    (store : List StoredDoc) (summary stats profile : JVal) (prompt : Str)
    (hsum : analyze_profile env.profileResp env.reposResp env.readmeOracle
      = Except.ok summary)
    (hstats : jget summary statsKeyJ = Except.ok stats)
    (hprof : jget summary profileKeyJ = Except.ok profile)
    (hbp : buildPrompt profile stats = Except.ok prompt)
    (hfail : env.llmResp = Except.error () ∨
      (∃ text, env.llmResp = Except.ok text ∧ json_loads (handedText text) = none)) :
    ∃ a, analyze_github_profile github_url env store
        = (HandlerResult.ok a, store ++ [serializeDoc a]) ∧
      a.score_breakdown = ⟨60, 65, 55, 60, 50, 60⟩ ∧
      a.overall_score = 58 := by
  obtain ⟨pkvs, pv, fv, gv, ts, tf, langs, nr, nd, top10, hshape⟩ :=
    analyze_profile_ok_shape hsum
  subst hshape
  have e1 : jget (JVal.obj [
      (profileKeyJ, JVal.obj pkvs),
      (repositoriesKeyJ, get_repositories env.reposResp),
      (statsKeyJ, JVal.obj [
        (publicReposKeyJ, pv), (followersKeyJ, fv), (followingKeyJ, gv),
        (totalStarsKeyJ, JVal.int ts), (totalForksKeyJ, JVal.int tf),
        (languagesKeyJ, JVal.obj langs),
        (reposWithReadmeKeyJ, JVal.int (nr : Int)),
        (reposWithDescriptionKeyJ, JVal.int (nd : Int)),
        (topReposKeyJ, top10)])]) statsKeyJ
      = Except.ok (JVal.obj [
        (publicReposKeyJ, pv), (followersKeyJ, fv), (followingKeyJ, gv),
        (totalStarsKeyJ, JVal.int ts), (totalForksKeyJ, JVal.int tf),
        (languagesKeyJ, JVal.obj langs),
        (reposWithReadmeKeyJ, JVal.int (nr : Int)),
        (reposWithDescriptionKeyJ, JVal.int (nd : Int)),
        (topReposKeyJ, top10)]) := rfl
  have e2 : jget (JVal.obj [
      (profileKeyJ, JVal.obj pkvs),
      (repositoriesKeyJ, get_repositories env.reposResp),
      (statsKeyJ, JVal.obj [
        (publicReposKeyJ, pv), (followersKeyJ, fv), (followingKeyJ, gv),
        (totalStarsKeyJ, JVal.int ts), (totalForksKeyJ, JVal.int tf),
        (languagesKeyJ, JVal.obj langs),
        (reposWithReadmeKeyJ, JVal.int (nr : Int)),
        (reposWithDescriptionKeyJ, JVal.int (nd : Int)),
        (topReposKeyJ, top10)])]) profileKeyJ
      = Except.ok (JVal.obj pkvs) := rfl
  rw [e1] at hstats
  rw [e2] at hprof
  injection hstats with hstats2
  injection hprof with hprof2
  subst hstats2
  subst hprof2
  have hga : generate_analysis (JVal.obj [
      (profileKeyJ, JVal.obj pkvs),
      (repositoriesKeyJ, get_repositories env.reposResp),
      (statsKeyJ, JVal.obj [
        (publicReposKeyJ, pv), (followersKeyJ, fv), (followingKeyJ, gv),
        (totalStarsKeyJ, JVal.int ts), (totalForksKeyJ, JVal.int tf),
        (languagesKeyJ, JVal.obj langs),
        (reposWithReadmeKeyJ, JVal.int (nr : Int)),
        (reposWithDescriptionKeyJ, JVal.int (nd : Int)),
        (topReposKeyJ, top10)])]) env.llmResp = Except.ok default_analysis := by
    unfold generate_analysis
    rw [e1, e2]
    simp only [asExc, bind, Except.bind]
    rw [hbp]
    simp only [asExc, bind, Except.bind]
    rcases hfail with hf | ⟨text, htext, hparse⟩
    · rw [hf]
      rfl
    · rw [htext]
      dsimp only
      rw [hparse]
      rfl
  unfold analyze_github_profile
  rw [hsum]
  simp only [bind, Except.bind]
  rw [hga]
  simp only [bind, Except.bind]
  exact ⟨_, rfl, rfl, rfl⟩

/-- C2 witness: a concrete run — empty profile object, failed
    repository fetch, raising scoring call — returns 200 with the
    default breakdown and appends one document. -/
theorem analyze_defaults_witness :
    ∃ a, analyze_github_profile ("octocat".toList)
        ⟨some (200, JVal.obj []), none, fun _ => none, Except.error (),
         "id0".toList, ⟨2024, 1, 2, 3, 4, 5, 6⟩⟩ []
        = (HandlerResult.ok a, [serializeDoc a]) ∧
      a.score_breakdown = ⟨60, 65, 55, 60, 50, 60⟩ ∧
      a.overall_score = 58 := by
  have h := analyze_defaults_on_scoring_failure ("octocat".toList)
    ⟨some (200, JVal.obj []), none, fun _ => none, Except.error (),
     "id0".toList, ⟨2024, 1, 2, 3, 4, 5, 6⟩⟩
    [] _ _ _ _ rfl rfl rfl rfl (Or.inl rfl)
  simpa using h

/-- C10: when the generator's response parses as JSON but the parsed
    value lacks `score_breakdown` (or is not an object),
    `generate_analysis` returns the parsed value unchanged — the
    default is substituted only on an exception — and the handler's
    subsequent field access raises, so `POST /api/analyze` answers
    HTTP 500 and nothing is persisted. -/
theorem generate_analysis_shape_unchecked_500 (github_url : Str) (env : Env)
    (store : List StoredDoc) (summary stats profile v : JVal)
    (prompt text : Str)
    (hsum : analyze_profile env.profileResp env.reposResp env.readmeOracle
      = Except.ok summary)
    (hstats : jget summary statsKeyJ = Except.ok stats)
    (hprof : jget summary profileKeyJ = Except.ok profile)
    (hbp : buildPrompt profile stats = Except.ok prompt)
    (hllm : env.llmResp = Except.ok text)
    (hparse : json_loads (handedText text) = some v)
    (hbd : jget v scoreBreakdownKeyJ = Except.error ()) :
    generate_analysis summary env.llmResp = Except.ok v ∧
    analyze_github_profile github_url env store
      = (HandlerResult.err 500 ("Analysis failed".toList), store) := by
  have hga : generate_analysis summary env.llmResp = Except.ok v := by
    unfold generate_analysis
    rw [hstats]
    simp only [asExc, bind, Except.bind]
    rw [hprof]
    simp only [asExc, bind, Except.bind]
    rw [hbp]
    simp only [asExc, bind, Except.bind]
    rw [hllm]
    dsimp only
    rw [hparse]
    rfl
  refine ⟨hga, ?_⟩
  have hco : computeOverallScore v = Except.error PyErr.exc := by
    unfold computeOverallScore
    rw [hbd]
    rfl
  unfold analyze_github_profile
  rw [hsum]
  simp only [bind, Except.bind]
  rw [hga]
  simp only [bind, Except.bind]
  rw [hco]

/-- C10 witness: the response text `"{}"` parses to an empty object,
    is returned unchanged, and the handler answers 500 with the store
    untouched. -/
theorem generate_analysis_shape_unchecked_witness :
    generate_analysis (JVal.obj [
        (profileKeyJ, JVal.obj []),
        (repositoriesKeyJ, JVal.arr []),
        (statsKeyJ, JVal.obj [
          (publicReposKeyJ, JVal.int 0), (followersKeyJ, JVal.int 0),
          (followingKeyJ, JVal.int 0), (totalStarsKeyJ, JVal.int 0),
          (totalForksKeyJ, JVal.int 0), (languagesKeyJ, JVal.obj []),
          (reposWithReadmeKeyJ, JVal.int 0),
          (reposWithDescriptionKeyJ, JVal.int 0),
          (topReposKeyJ, JVal.arr [])])])
      (Except.ok ("\x7b\x7d".toList)) = Except.ok (JVal.obj []) ∧
    analyze_github_profile ("octocat".toList)
      ⟨some (200, JVal.obj []), none, fun _ => none,
       Except.ok ("\x7b\x7d".toList), "id0".toList, ⟨2024, 1, 2, 3, 4, 5, 6⟩⟩ []
      = (HandlerResult.err 500 ("Analysis failed".toList), []) := by
  exact generate_analysis_shape_unchecked_500 ("octocat".toList)
    ⟨some (200, JVal.obj []), none, fun _ => none,
     Except.ok ("\x7b\x7d".toList), "id0".toList, ⟨2024, 1, 2, 3, 4, 5, 6⟩⟩
    [] _ _ _ _ _ _ rfl rfl rfl rfl rfl rfl rfl

/-! ### Success-propagation helpers for the scoring pipeline -/

theorem mapM_ok {α β : Type} {g : α → Except Unit β} {l : List α}
    (h : ∀ x ∈ l, ∃ y, g x = Except.ok y) :
    ∃ ys, l.mapM g = Except.ok ys := by
  induction l with
  | nil => exact ⟨[], rfl⟩
  | cons a l ih =>
    obtain ⟨y, hy⟩ := h a (by simp)
    obtain ⟨ys, hys⟩ := ih (fun x hx => h x (by simp [hx]))
    refine ⟨y :: ys, ?_⟩
    rw [List.mapM_cons, hy, hys]
    rfl

theorem foldlM_ok_elems {α β : Type} {f : β → α → Except Unit β}
    {l : List α} {b out : β} (h : l.foldlM f b = Except.ok out) :
    ∀ x ∈ l, ∃ acc acc2, f acc x = Except.ok acc2 := by
  induction l generalizing b with
  | nil => simp
  | cons a l ih =>
    rw [List.foldlM_cons] at h
    cases hf : f b a with
    | error e => rw [hf] at h; exact Except.noConfusion h
    | ok c =>
      rw [hf] at h
      simp only [bind, Except.bind] at h
      intro x hx
      rcases List.mem_cons.mp hx with rfl | hx2
      · exact ⟨b, c, hf⟩
      · exact ih h x hx2

/-- A successful `repoStep` forces the repository entry to be a dict
    carrying a `name`. -/
theorem repoStep_ok_shape {oracle : JVal → Option Str}
    {st st2 : List (JVal × JVal) × Nat × Nat} {repo : JVal}
    (h : repoStep oracle st repo = Except.ok st2) :
    ∃ kvs, repo = JVal.obj kvs ∧ ∃ nv, dictFind kvs nameKeyJ = some nv := by
  obtain ⟨langs, wr, wd⟩ := st
  unfold repoStep at h
  cases repo with
  | obj kvs =>
    refine ⟨kvs, rfl, ?_⟩
    cases hn : dictFind kvs nameKeyJ with
    | some nv => exact ⟨nv, rfl⟩
    | none =>
      exfalso
      simp only [pyGetD, jget, hn, bind, Except.bind] at h
      repeat'
        first
        | exact Except.noConfusion h
        | split at h
  | null => exact Except.noConfusion h
  | bool b => exact Except.noConfusion h
  | int n => exact Except.noConfusion h
  | str s => exact Except.noConfusion h
  | arr xs => exact Except.noConfusion h

/-- Inversion of a successful `analyze_profile` run: the operational
    facts about each stage and the literal shape of the summary. -/
theorem analyze_profile_ok_parts {pr rr : Option (Nat × JVal)}
    {oracle : JVal → Option Str} {s : JVal}
    (h : analyze_profile pr rr oracle = Except.ok s) :
    ∃ pkvs elems tstars tforks top10 topElems langs nread ndesc pv fv gv,
      get_user_profile pr = Except.ok (JVal.obj pkvs) ∧
      pyIter (get_repositories rr) = Except.ok elems ∧
      sumByKey stargazersKeyJ elems = Except.ok tstars ∧
      sumByKey forksKeyJ elems = Except.ok tforks ∧
      pySlice (get_repositories rr) 10 = Except.ok top10 ∧
      pyIter top10 = Except.ok topElems ∧
      topElems.foldlM (repoStep oracle) ([], 0, 0)
        = Except.ok (langs, nread, ndesc) ∧
      s = JVal.obj [
        (profileKeyJ, JVal.obj pkvs),
        (repositoriesKeyJ, get_repositories rr),
        (statsKeyJ, JVal.obj [
          (publicReposKeyJ, pv),
          (followersKeyJ, fv),
          (followingKeyJ, gv),
          (totalStarsKeyJ, JVal.int tstars),
          (totalForksKeyJ, JVal.int tforks),
          (languagesKeyJ, JVal.obj langs),
          (reposWithReadmeKeyJ, JVal.int ((nread : Nat) : Int)),
          (reposWithDescriptionKeyJ, JVal.int ((ndesc : Nat) : Int)),
          (topReposKeyJ, top10)])] := by
  unfold analyze_profile at h
  cases hp : get_user_profile pr with
  | error e =>
    rw [hp] at h
    simp only [bind, Except.bind] at h
    exact Except.noConfusion h
  | ok profile =>
  rw [hp] at h
  simp only [bind, Except.bind] at h
  cases hi : pyIter (get_repositories rr) with
  | error e =>
    rw [hi] at h
    simp only [asExc, bind, Except.bind] at h
    exact Except.noConfusion h
  | ok elems =>
  rw [hi] at h
  simp only [asExc, bind, Except.bind] at h
  cases hst : sumByKey stargazersKeyJ elems with
  | error e =>
    rw [hst] at h
    simp only [asExc, bind, Except.bind] at h
    exact Except.noConfusion h
  | ok tstars =>
  rw [hst] at h
  simp only [asExc, bind, Except.bind] at h
  cases hsf : sumByKey forksKeyJ elems with
  | error e =>
    rw [hsf] at h
    simp only [asExc, bind, Except.bind] at h
    exact Except.noConfusion h
  | ok tforks =>
  rw [hsf] at h
  simp only [asExc, bind, Except.bind] at h
  cases hsl : pySlice (get_repositories rr) 10 with
  | error e =>
    rw [hsl] at h
    simp only [asExc, bind, Except.bind] at h
    exact Except.noConfusion h
  | ok top10 =>
  rw [hsl] at h
  simp only [asExc, bind, Except.bind] at h
  cases hti : pyIter top10 with
  | error e =>
    rw [hti] at h
    simp only [asExc, bind, Except.bind] at h
    exact Except.noConfusion h
  | ok topElems =>
  rw [hti] at h
  simp only [asExc, bind, Except.bind] at h
  cases hfl : topElems.foldlM (repoStep oracle) ([], 0, 0) with
  | error e =>
    rw [hfl] at h
    simp only [asExc, bind, Except.bind] at h
    exact Except.noConfusion h
  | ok st =>
  rw [hfl] at h
  simp only [asExc, bind, Except.bind] at h
  obtain ⟨langs, nread, ndesc⟩ := st
  cases profile with
  | obj pkvs =>
    simp only [pyGetD, asExc, bind, Except.bind, Functor.map, Except.map,
      pure, Except.pure] at h
    injection h with h2
    exact ⟨pkvs, elems, tstars, tforks, top10, topElems, langs, nread, ndesc,
      _, _, _, rfl, rfl, hst, hsf, rfl, hti, hfl, h2.symm⟩
  | null =>
    simp only [pyGetD, asExc, bind, Except.bind] at h
    exact Except.noConfusion h
  | bool b =>
    simp only [pyGetD, asExc, bind, Except.bind] at h
    exact Except.noConfusion h
  | int n =>
    simp only [pyGetD, asExc, bind, Except.bind] at h
    exact Except.noConfusion h
  | str s2 =>
    simp only [pyGetD, asExc, bind, Except.bind] at h
    exact Except.noConfusion h
  | arr xs =>
    simp only [pyGetD, asExc, bind, Except.bind] at h
    exact Except.noConfusion h

theorem pyJoin_ok {sep : Str} {items : List JVal}
    (h : ∀ v ∈ items, ∃ s2, v = JVal.str s2) :
    ∃ out, pyJoin sep items = Except.ok out := by
  obtain ⟨ys, hys⟩ := mapM_ok (l := items)
    (g := fun v => match v with
      | JVal.str s2 => Except.ok s2
      | _ => Except.error ())
    (fun x hx => by
      obtain ⟨s2, rfl⟩ := h x hx
      exact ⟨s2, rfl⟩)
  refine ⟨strJoin sep ys, ?_⟩
  unfold pyJoin
  rw [hys]
  rfl

/-- The stats object assembled by `analyze_profile`. -/
def statsObjOf (pv fv gv : JVal) (ts tf : Int) (langs : List (JVal × JVal))
    (nr nd : Int) (top10 : JVal) : JVal :=
  JVal.obj [
    (publicReposKeyJ, pv), (followersKeyJ, fv), (followingKeyJ, gv),
    (totalStarsKeyJ, JVal.int ts), (totalForksKeyJ, JVal.int tf),
    (languagesKeyJ, JVal.obj langs),
    (reposWithReadmeKeyJ, JVal.int nr),
    (reposWithDescriptionKeyJ, JVal.int nd),
    (topReposKeyJ, top10)]

theorem pySlice_ok_shape {v top : JVal} {n : Nat}
    (h : pySlice v n = Except.ok top) :
    (∃ xs, v = JVal.arr xs ∧ top = JVal.arr (xs.take n)) ∨
    (∃ s2, v = JVal.str s2 ∧ top = JVal.str (s2.take n)) := by
  cases v with
  | arr xs =>
    left
    refine ⟨xs, rfl, ?_⟩
    simpa [pySlice] using h.symm
  | str s2 =>
    right
    refine ⟨s2, rfl, ?_⟩
    simpa [pySlice] using h.symm
  | null => exact Except.noConfusion h
  | bool b => exact Except.noConfusion h
  | int m => exact Except.noConfusion h
  | obj kvs => exact Except.noConfusion h

theorem formatRepoLine_ok {kvs : List (JVal × JVal)} {nv : JVal}
    (hnv : dictFind kvs nameKeyJ = some nv) :
    ∃ y, formatRepoLine (JVal.obj kvs) = Except.ok y := by
  have hn : jget (JVal.obj kvs) nameKeyJ = Except.ok nv := by
    simp [jget, hnv]
  refine ⟨("- ".toList) ++ pyStr nv ++ (": ".toList) ++
      pyStr ((dictFind kvs descriptionKeyJ).getD
        (JVal.str ("No description".toList))) ++
      (" (⭐ ".toList) ++
      pyStr ((dictFind kvs stargazersKeyJ).getD (JVal.int 0)) ++
      (", Language: ".toList) ++
      pyStr ((dictFind kvs languageKeyJ).getD (JVal.str ("N/A".toList))) ++
      (")".toList), ?_⟩
  unfold formatRepoLine
  rw [hn]
  rfl

theorem format_repos_ok {v : JVal} {elems : List JVal}
    (hiter : pyIter v = Except.ok elems)
    (hall : ∀ x ∈ elems, ∃ kvs, x = JVal.obj kvs ∧
      ∃ nv, dictFind kvs nameKeyJ = some nv) :
    ∃ out, format_repos v = Except.ok out := by
  obtain ⟨ys, hys⟩ := mapM_ok (l := elems) (g := formatRepoLine)
    (fun x hx => by
      obtain ⟨kvs, rfl, nv, hnv⟩ := hall x hx
      exact formatRepoLine_ok hnv)
  refine ⟨strJoin ("\n".toList) ys, ?_⟩
  unfold format_repos
  rw [hiter]
  simp only [bind, Except.bind]
  rw [hys]
  rfl

theorem buildPrompt_ok {pkvs langs : List (JVal × JVal)} {pv fv gv : JVal}
    {ts tf nr nd : Int} {top10 top5 : JVal} {fmt : Str}
    (hl : ∀ kv ∈ langs, ∃ s2, kv.1 = JVal.str s2)
    (hs5 : pySlice top10 5 = Except.ok top5)
    (hfm : format_repos top5 = Except.ok fmt) :
    ∃ p, buildPrompt (JVal.obj pkvs)
      (statsObjOf pv fv gv ts tf langs nr nd top10) = Except.ok p := by
  obtain ⟨joined, hj⟩ := @pyJoin_ok (", ".toList) (langs.map (·.1)) (by
      intro v hv
      obtain ⟨kv, hkv, rfl⟩ := List.mem_map.mp hv
      exact hl kv hkv)
  unfold buildPrompt
  have e1 : jget (statsObjOf pv fv gv ts tf langs nr nd top10) publicReposKeyJ
      = Except.ok pv := rfl
  have e2 : jget (statsObjOf pv fv gv ts tf langs nr nd top10) followersKeyJ
      = Except.ok fv := rfl
  have e3 : jget (statsObjOf pv fv gv ts tf langs nr nd top10) totalStarsKeyJ
      = Except.ok (JVal.int ts) := rfl
  have e4 : jget (statsObjOf pv fv gv ts tf langs nr nd top10) totalForksKeyJ
      = Except.ok (JVal.int tf) := rfl
  have e5 : jget (statsObjOf pv fv gv ts tf langs nr nd top10) languagesKeyJ
      = Except.ok (JVal.obj langs) := rfl
  have e6 : jget (statsObjOf pv fv gv ts tf langs nr nd top10) reposWithReadmeKeyJ
      = Except.ok (JVal.int nr) := rfl
  have e7 : jget (statsObjOf pv fv gv ts tf langs nr nd top10)
      reposWithDescriptionKeyJ = Except.ok (JVal.int nd) := rfl
  have e8 : jget (statsObjOf pv fv gv ts tf langs nr nd top10) topReposKeyJ
      = Except.ok top10 := rfl
  rw [e1, e2, e3, e4, e5, e6, e7, e8]
  simp only [pyGetD, bind, Except.bind]
  rw [hj]
  simp only [bind, Except.bind]
  rw [hs5]
  simp only [bind, Except.bind]
  rw [hfm]
  exact ⟨_, rfl⟩

/-- When the pre-`try:` lookups and prompt construction succeed, the
    `try:` block guarantees a payload for every call outcome. -/
theorem generate_analysis_ok_of_prompt {summary stats profile : JVal}
    {prompt : Str} (llm : Except Unit Str)
    (hstats : jget summary statsKeyJ = Except.ok stats)
    (hprof : jget summary profileKeyJ = Except.ok profile)
    (hbp : buildPrompt profile stats = Except.ok prompt) :
    ∃ payload, generate_analysis summary llm = Except.ok payload := by
  unfold generate_analysis
  rw [hstats]
  simp only [asExc, bind, Except.bind]
  rw [hprof]
  simp only [asExc, bind, Except.bind]
  rw [hbp]
  simp only [asExc, bind, Except.bind]
  cases llm with
  | error e => exact ⟨default_analysis, rfl⟩
  | ok text =>
    cases hp : json_loads (handedText text) with
    | some v =>
      refine ⟨v, ?_⟩
      dsimp only
      rw [hp]
      rfl
    | none =>
      refine ⟨default_analysis, ?_⟩
      dsimp only
      rw [hp]
      rfl

set_option maxHeartbeats 1000000 in
/-- C6 (as amended): for every summary produced by `analyze_profile`
    in which, additionally, every tallied language key is a string,
    `generate_analysis` never raises — any exception during the
    external call or the parse is caught and a payload (parsed or
    default) is returned. -/
theorem generate_analysis_total_amended {pr rr : Option (Nat × JVal)}
    {oracle : JVal → Option Str} {summary : JVal} (llm : Except Unit Str)
    (hsum : analyze_profile pr rr oracle = Except.ok summary)
    (hlang : ∀ stats kvs, jget summary statsKeyJ = Except.ok stats →
      jget stats languagesKeyJ = Except.ok (JVal.obj kvs) →
      ∀ kv ∈ kvs, ∃ s2, kv.1 = JVal.str s2) :
    ∃ payload, generate_analysis summary llm = Except.ok payload := by
  obtain ⟨pkvs, elems, tstars, tforks, top10, topElems, langs, nread, ndesc,
    pv, fv, gv, hup, hie, hst, hsf, hsl, hti, hfl, hshape⟩ :=
    analyze_profile_ok_parts hsum
  subst hshape
  have hl : ∀ kv ∈ langs, ∃ s2, kv.1 = JVal.str s2 := hlang _ _ rfl rfl
  have hfacts : ∀ x ∈ topElems, ∃ kvs, x = JVal.obj kvs ∧
      ∃ nv, dictFind kvs nameKeyJ = some nv := by
    intro x hx
    obtain ⟨acc, acc2, hstep⟩ := foldlM_ok_elems hfl x hx
    exact repoStep_ok_shape hstep
  rcases pySlice_ok_shape hsl with ⟨xs, hv, htop⟩ | ⟨s2, hv, htop⟩
  · subst htop
    have hte : topElems = xs.take 10 := by
      have : pyIter (JVal.arr (xs.take 10)) = Except.ok (xs.take 10) := rfl
      rw [this] at hti
      injection hti with h2
      exact h2.symm
    subst hte
    obtain ⟨fmt, hfm⟩ := @format_repos_ok
      (JVal.arr ((xs.take 10).take 5)) ((xs.take 10).take 5)
      rfl (fun x hx => hfacts x (List.take_subset _ _ hx))
    obtain ⟨p, hbp⟩ := @buildPrompt_ok pkvs langs pv fv gv tstars tforks
      (nread : Int) (ndesc : Int) (JVal.arr (xs.take 10))
      (JVal.arr ((xs.take 10).take 5)) fmt hl rfl hfm
    exact generate_analysis_ok_of_prompt llm rfl rfl hbp
  · subst htop
    cases hs2 : s2.take 10 with
    | nil =>
      have hfm : format_repos (JVal.str []) = Except.ok [] := rfl
      obtain ⟨p, hbp⟩ := @buildPrompt_ok pkvs langs pv fv gv tstars tforks
        (nread : Int) (ndesc : Int) (JVal.str []) (JVal.str []) [] hl rfl hfm
      exact generate_analysis_ok_of_prompt llm rfl rfl hbp
    | cons c cs =>
      exfalso
      have hte : topElems = JVal.str [c] :: cs.map (fun c2 => JVal.str [c2]) := by
        have : pyIter (JVal.str (s2.take 10)) =
            Except.ok ((s2.take 10).map (fun c2 => JVal.str [c2])) := rfl
        rw [this, hs2] at hti
        injection hti with h2
        exact h2.symm
      have hmem : JVal.str [c] ∈ topElems := by
        rw [hte]
        simp
      obtain ⟨acc, acc2, hstep⟩ := foldlM_ok_elems hfl _ hmem
      obtain ⟨kvs, heq, _⟩ := repoStep_ok_shape hstep
      exact JVal.noConfusion heq

/-- C6 (counterexample): a summary produced by `analyze_profile` with
    `profile` and `stats` present and its only top repository carrying
    a name — but a truthy non-string `language` (the JSON number 5) —
    makes `generate_analysis` raise: the prompt is built before the
    `try:` block, and joining the language keys with `', '.join` needs
    string keys. -/
theorem generate_analysis_raises_counterexample :
    (∃ s, analyze_profile (some (200, JVal.obj []))
        (some (200, JVal.arr [JVal.obj [(nameKeyJ, JVal.str ("x".toList)),
          (languageKeyJ, JVal.int 5)]]))
        (fun _ => none) = Except.ok s ∧
      (∃ v1, jget s profileKeyJ = Except.ok v1) ∧
      (∃ v2, jget s statsKeyJ = Except.ok v2) ∧
      generate_analysis s (Except.error ()) = Except.error PyErr.exc) ∧
    jget (JVal.obj [(nameKeyJ, JVal.str ("x".toList)),
        (languageKeyJ, JVal.int 5)]) nameKeyJ
      = Except.ok (JVal.str ("x".toList)) :=
  ⟨⟨_, rfl, ⟨_, rfl⟩, ⟨_, rfl⟩, rfl⟩, rfl⟩

/-- C6 witness: a concrete summary (no repositories, hence no tallied
    languages) on which `generate_analysis` returns a payload. -/
theorem generate_analysis_total_witness :
    ∃ payload, generate_analysis (JVal.obj [
      (profileKeyJ, JVal.obj []),
      (repositoriesKeyJ, JVal.arr []),
      (statsKeyJ, JVal.obj [
        (publicReposKeyJ, JVal.int 0), (followersKeyJ, JVal.int 0),
        (followingKeyJ, JVal.int 0), (totalStarsKeyJ, JVal.int 0),
        (totalForksKeyJ, JVal.int 0), (languagesKeyJ, JVal.obj []),
        (reposWithReadmeKeyJ, JVal.int 0),
        (reposWithDescriptionKeyJ, JVal.int 0),
        (topReposKeyJ, JVal.arr [])])])
      (Except.error ()) = Except.ok payload := by
  apply @generate_analysis_total_amended (some (200, JVal.obj [])) none
    (fun _ => none) _ (Except.error ()) rfl
  intro stats kvs h1 h2
  injection (show Except.ok (JVal.obj [
        (publicReposKeyJ, JVal.int 0), (followersKeyJ, JVal.int 0),
        (followingKeyJ, JVal.int 0), (totalStarsKeyJ, JVal.int 0),
        (totalForksKeyJ, JVal.int 0), (languagesKeyJ, JVal.obj []),
        (reposWithReadmeKeyJ, JVal.int 0),
        (reposWithDescriptionKeyJ, JVal.int 0),
        (topReposKeyJ, JVal.arr [])]) = Except.ok stats from h1) with h1b
  subst h1b
  injection (show Except.ok (JVal.obj []) = Except.ok (JVal.obj kvs) from h2) with h2b
  injection h2b with h2c
  subst h2c
  intro kv hkv
  simp at hkv

/-- Specification-side: one repository's contribution to a `get(key,0)`
    sum. -/
def repoCount (key : JVal) (repo : JVal) : Except Unit Int := do
  let v ← pyGetD repo key (JVal.int 0)
  pyAddInt 0 v

/-- Specification-side: the sum of `repo.get(key, 0)` over a whole
    repository list. -/
def sumKeySpec (key : JVal) (rs : List JVal) : Except Unit Int :=
  (rs.mapM (repoCount key)).map List.sum

theorem sumByKey_fold (key : JVal) (rs : List JVal) (acc : Int) :
    rs.foldlM (fun acc repo => do
      let v ← pyGetD repo key (JVal.int 0)
      pyAddInt acc v) acc
    = (rs.mapM (repoCount key)).map (fun vals => acc + vals.sum) := by
  induction rs generalizing acc with
  | nil =>
    show Except.ok acc = (Except.ok ([] : List Int)).map (fun vals => acc + vals.sum)
    simp [Except.map]
  | cons r rs ih =>
    simp only [List.foldlM_cons, List.mapM_cons, repoCount, bind,
      Except.bind] at ih ⊢
    cases hg : pyGetD r key (JVal.int 0) with
    | error e =>
      simp [Except.map]
    | ok v =>
      dsimp only
      cases v with
      | int n =>
        have hp : pyAddInt acc (JVal.int n) = Except.ok (acc + n) := rfl
        rw [hp]
        dsimp only
        rw [ih]
        cases hm : rs.mapM (repoCount key) with
        | error e => simp [pyAddInt, Except.map]
        | ok vals =>
          simp [pyAddInt, Except.map, pure, Except.pure]
          omega
      | bool b =>
        have hp : pyAddInt acc (JVal.bool b)
            = Except.ok (acc + if b then 1 else 0) := rfl
        rw [hp]
        dsimp only
        rw [ih]
        cases hm : rs.mapM (repoCount key) with
        | error e => simp [pyAddInt, Except.map]
        | ok vals =>
          simp [pyAddInt, Except.map, pure, Except.pure]
          cases b <;> simp <;> omega
      | null => simp [pyAddInt, Except.map]
      | str s2 => simp [pyAddInt, Except.map]
      | arr xs => simp [pyAddInt, Except.map]
      | obj kvs => simp [pyAddInt, Except.map]

theorem sumByKey_spec (key : JVal) (rs : List JVal) :
    sumByKey key rs = sumKeySpec key rs := by
  unfold sumByKey sumKeySpec
  rw [sumByKey_fold]
  cases hm : rs.mapM (repoCount key) with
  | error e => rfl
  | ok vals => simp [Except.map]

/-- Specification-side: the language-tally update of one loop
    iteration. -/
def langStep (acc : List (JVal × JVal)) (repo : JVal) :
    Except Unit (List (JVal × JVal)) := do
  let langV ← pyGetD repo languageKeyJ JVal.null
  if pyTruthy langV then do
    let langK ← jget repo languageKeyJ
    if pyHashable langK then
      match (dictFind acc langK).getD (JVal.int 0) with
      | JVal.int n => Except.ok (dictSet acc langK (JVal.int (n + 1)))
      | JVal.bool b =>
        Except.ok (dictSet acc langK (JVal.int ((if b then 1 else 0) + 1)))
      | _ => Except.error ()
    else Except.error ()
  else Except.ok acc

/-- Specification-side: the README-presence count update of one loop
    iteration. -/
def readmeStep (oracle : JVal → Option Str) (cnt : Nat) (repo : JVal) :
    Except Unit Nat := do
  let nameV ← jget repo nameKeyJ
  pure (match oracle nameV with
    | some txt => if txt.isEmpty then cnt else cnt + 1
    | none => cnt)

/-- Specification-side: the description-presence count update of one
    loop iteration. -/
def descStep (cnt : Nat) (repo : JVal) : Except Unit Nat := do
  let descV ← pyGetD repo descriptionKeyJ JVal.null
  pure (if pyTruthy descV then cnt + 1 else cnt)

/-- One fused loop iteration decomposes into the three independent
    updates. -/
theorem repoStep_decomp {oracle : JVal → Option Str}
    {st st2 : List (JVal × JVal) × Nat × Nat} {repo : JVal}
    (h : repoStep oracle st repo = Except.ok st2) :
    langStep st.1 repo = Except.ok st2.1 ∧
    readmeStep oracle st.2.1 repo = Except.ok st2.2.1 ∧
    descStep st.2.2 repo = Except.ok st2.2.2 := by
  obtain ⟨langs, wr, wd⟩ := st
  obtain ⟨kvs, hrepo, nv, hnv⟩ := repoStep_ok_shape h
  subst hrepo
  unfold repoStep at h
  unfold langStep readmeStep descStep
  simp only [pyGetD, jget, hnv, bind, Except.bind, pure, Except.pure] at h ⊢
  by_cases ht : pyTruthy ((dictFind kvs languageKeyJ).getD JVal.null)
  · simp only [ht, if_true] at h ⊢
    cases hlf : dictFind kvs languageKeyJ with
    | none =>
      try rw [hlf] at h
      exact Except.noConfusion h
    | some langK =>
      try rw [hlf] at h
      try rw [hlf]
      dsimp only at h ⊢
      by_cases hh : pyHashable langK
      · simp only [hh, if_true] at h ⊢
        cases hcur : (dictFind langs langK).getD (JVal.int 0) with
        | int n =>
          try rw [hcur] at h
          try rw [hcur]
          try dsimp only at h ⊢
          injection h with h2
          subst h2
          exact ⟨rfl, rfl, rfl⟩
        | bool b =>
          try rw [hcur] at h
          try rw [hcur]
          try dsimp only at h ⊢
          injection h with h2
          subst h2
          exact ⟨rfl, rfl, rfl⟩
        | null =>
          try rw [hcur] at h
          exact Except.noConfusion h
        | str s2 =>
          try rw [hcur] at h
          exact Except.noConfusion h
        | arr xs =>
          try rw [hcur] at h
          exact Except.noConfusion h
        | obj kvs2 =>
          try rw [hcur] at h
          exact Except.noConfusion h
      · simp only [hh, if_false] at h
        exact Except.noConfusion h
  · simp only [ht, if_false] at h ⊢
    injection h with h2
    subst h2
    exact ⟨rfl, rfl, rfl⟩

/-- The fused top-10 loop equals the three independent scans. -/
theorem topLoop_decomp {oracle : JVal → Option Str} {rs : List JVal}
    {l0 : List (JVal × JVal)} {r0 d0 : Nat} {l : List (JVal × JVal)}
    {r d : Nat}
    (h : rs.foldlM (repoStep oracle) (l0, r0, d0) = Except.ok (l, r, d)) :
    rs.foldlM langStep l0 = Except.ok l ∧
    rs.foldlM (readmeStep oracle) r0 = Except.ok r ∧
    rs.foldlM descStep d0 = Except.ok d := by
  induction rs generalizing l0 r0 d0 with
  | nil =>
    injection h with h2
    rw [Prod.ext_iff] at h2
    obtain ⟨h3, h4⟩ := h2
    rw [Prod.ext_iff] at h4
    obtain ⟨h5, h6⟩ := h4
    simp only at h3 h5 h6
    subst h3
    subst h5
    subst h6
    exact ⟨rfl, rfl, rfl⟩
  | cons x rs ih =>
    rw [List.foldlM_cons] at h
    cases hs : repoStep oracle (l0, r0, d0) x with
    | error e =>
      rw [hs] at h
      exact Except.noConfusion h
    | ok st1 =>
      rw [hs] at h
      simp only [bind, Except.bind] at h
      obtain ⟨l1, r1, d1⟩ := st1
      obtain ⟨hl, hr, hd⟩ := repoStep_decomp hs
      obtain ⟨ihl, ihr, ihd⟩ := ih h
      refine ⟨?_, ?_, ?_⟩
      · rw [List.foldlM_cons, hl]
        simpa [bind, Except.bind] using ihl
      · rw [List.foldlM_cons, hr]
        simpa [bind, Except.bind] using ihr
      · rw [List.foldlM_cons, hd]
        simpa [bind, Except.bind] using ihd

/-- C7: for every repository list the fetcher returns, the summary's
    star and fork totals are the `get(key, 0)` sums over ALL
    repositories, while the language tally, the README-presence count,
    the description-presence count, and the `top_repos` list are
    computed over only the first 10 entries; with zero repositories the
    totals and counts are zero and the tally and list are empty. -/
theorem analyze_profile_stats_spec {pr rr : Option (Nat × JVal)}
    {oracle : JVal → Option Str} {s : JVal} {rs : List JVal}
    (hrepos : get_repositories rr = JVal.arr rs)
    (h : analyze_profile pr rr oracle = Except.ok s) :
    ∃ stats S F L R D,
      jget s statsKeyJ = Except.ok stats ∧
      jget stats totalStarsKeyJ = Except.ok (JVal.int S) ∧
      sumKeySpec stargazersKeyJ rs = Except.ok S ∧
      jget stats totalForksKeyJ = Except.ok (JVal.int F) ∧
      sumKeySpec forksKeyJ rs = Except.ok F ∧
      jget stats languagesKeyJ = Except.ok (JVal.obj L) ∧
      (rs.take 10).foldlM langStep [] = Except.ok L ∧
      jget stats reposWithReadmeKeyJ = Except.ok (JVal.int ((R : Nat) : Int)) ∧
      (rs.take 10).foldlM (readmeStep oracle) 0 = Except.ok R ∧
      jget stats reposWithDescriptionKeyJ = Except.ok (JVal.int ((D : Nat) : Int)) ∧
      (rs.take 10).foldlM descStep 0 = Except.ok D ∧
      jget stats topReposKeyJ = Except.ok (JVal.arr (rs.take 10)) ∧
      (rs = [] → S = 0 ∧ F = 0 ∧ L = [] ∧ R = 0 ∧ D = 0) := by
  obtain ⟨pkvs, elems, tstars, tforks, top10, topElems, langs, nread, ndesc,
    pv, fv, gv, hup, hie, hst, hsf, hsl, hti, hfl, hshape⟩ :=
    analyze_profile_ok_parts h
  subst hshape
  rw [hrepos] at hie hsl
  have helems : rs = elems :=
    Except.ok.inj (show Except.ok rs = Except.ok elems from hie)
  subst helems
  have htop : JVal.arr (rs.take 10) = top10 :=
    Except.ok.inj
      (show Except.ok (JVal.arr (rs.take 10)) = Except.ok top10 from hsl)
  subst htop
  have hte : rs.take 10 = topElems :=
    Except.ok.inj
      (show Except.ok (rs.take 10) = Except.ok topElems from hti)
  subst hte
  obtain ⟨hlang, hread, hdesc⟩ := topLoop_decomp hfl
  rw [sumByKey_spec] at hst hsf
  refine ⟨_, tstars, tforks, langs, nread, ndesc,
    rfl, rfl, hst, rfl, hsf, rfl, hlang, rfl, hread, rfl, hdesc, rfl, ?_⟩
  intro hrs
  subst hrs
  refine ⟨?_, ?_, ?_, ?_, ?_⟩
  · exact (Except.ok.inj (show Except.ok (0 : Int) = Except.ok tstars from hst)).symm
  · exact (Except.ok.inj (show Except.ok (0 : Int) = Except.ok tforks from hsf)).symm
  · exact (Except.ok.inj (show Except.ok ([] : List (JVal × JVal))
      = Except.ok langs from hlang)).symm
  · exact (Except.ok.inj (show Except.ok (0 : Nat) = Except.ok nread from hread)).symm
  · exact (Except.ok.inj (show Except.ok (0 : Nat) = Except.ok ndesc from hdesc)).symm

/-- C7 witness: the zero-repository run — every derived total and
    count is zero, the tally and the top-10 list are empty. -/
theorem analyze_profile_stats_witness :
    ∃ stats S F L R D,
      jget (JVal.obj [
        (profileKeyJ, JVal.obj []),
        (repositoriesKeyJ, JVal.arr []),
        (statsKeyJ, JVal.obj [
          (publicReposKeyJ, JVal.int 0), (followersKeyJ, JVal.int 0),
          (followingKeyJ, JVal.int 0), (totalStarsKeyJ, JVal.int 0),
          (totalForksKeyJ, JVal.int 0), (languagesKeyJ, JVal.obj []),
          (reposWithReadmeKeyJ, JVal.int 0),
          (reposWithDescriptionKeyJ, JVal.int 0),
          (topReposKeyJ, JVal.arr [])])]) statsKeyJ = Except.ok stats ∧
      jget stats totalStarsKeyJ = Except.ok (JVal.int S) ∧
      sumKeySpec stargazersKeyJ [] = Except.ok S ∧
      jget stats totalForksKeyJ = Except.ok (JVal.int F) ∧
      sumKeySpec forksKeyJ [] = Except.ok F ∧
      jget stats languagesKeyJ = Except.ok (JVal.obj L) ∧
      (([] : List JVal).take 10).foldlM langStep [] = Except.ok L ∧
      jget stats reposWithReadmeKeyJ = Except.ok (JVal.int ((R : Nat) : Int)) ∧
      (([] : List JVal).take 10).foldlM (readmeStep (fun _ => none)) 0
        = Except.ok R ∧
      jget stats reposWithDescriptionKeyJ
        = Except.ok (JVal.int ((D : Nat) : Int)) ∧
      (([] : List JVal).take 10).foldlM descStep 0 = Except.ok D ∧
      jget stats topReposKeyJ
        = Except.ok (JVal.arr (([] : List JVal).take 10)) ∧
      (([] : List JVal) = [] → S = 0 ∧ F = 0 ∧ L = [] ∧ R = 0 ∧ D = 0) :=
  @analyze_profile_stats_spec (some (200, JVal.obj []))
    (some (200, JVal.arr [])) (fun _ => none) _ [] rfl rfl

theorem digitChar_isDigit : ∀ d, d < 10 → isDigitChar (Nat.digitChar d) = true := by
  decide

theorem digitChar_val : ∀ d, d < 10 → digitVal (Nat.digitChar d) = d := by
  decide

theorem pad_length (k n : Nat) : (pad k n).length = k := by
  induction k generalizing n with
  | zero => rfl
  | succ k ih => simp [pad, ih]

theorem parseDigitsK_pad {k : Nat} : ∀ {n : Nat} (acc : Nat) (r : Str),
    n < 10 ^ k →
    parseDigitsK k (pad k n ++ r) acc = some (acc * 10 ^ k + n, r) := by
  induction k with
  | zero =>
    intro n acc r hn
    have hn0 : n = 0 := by omega
    subst hn0
    simp [pad, parseDigitsK]
  | succ k ih =>
    intro n acc r hn
    have hq : n / 10 ^ k < 10 := by
      apply Nat.div_lt_of_lt_mul
      calc n < 10 ^ (k + 1) := hn
        _ = 10 * 10 ^ k := by ring
        _ = 10 ^ k * 10 := by ring
    show parseDigitsK (k + 1)
      ((Nat.digitChar (n / 10 ^ k) :: pad k (n % 10 ^ k)) ++ r) acc = _
    rw [List.cons_append]
    unfold parseDigitsK
    rw [digitChar_isDigit _ hq]
    simp only [if_true]
    rw [digitChar_val _ hq]
    rw [ih (acc * 10 + n / 10 ^ k) r (Nat.mod_lt _ (Nat.pos_pow_of_pos k (by norm_num)))]
    congr 2
    have hdm : 10 ^ k * (n / 10 ^ k) + n % 10 ^ k = n := Nat.div_add_mod n (10 ^ k)
    calc (acc * 10 + n / 10 ^ k) * 10 ^ k + n % 10 ^ k
        = acc * (10 * 10 ^ k) + (10 ^ k * (n / 10 ^ k) + n % 10 ^ k) := by ring
      _ = acc * 10 ^ (k + 1) + n := by
          rw [hdm]
          ring

theorem parseDigitsK_pad0 {k n : Nat} (hn : n < 10 ^ k) (r : Str) :
    parseDigitsK k (pad k n ++ r) 0 = some (n, r) := by
  rw [parseDigitsK_pad 0 r hn]
  simp

theorem parseMicro_pad {us : Nat} (hus : us < 10 ^ 6) (r : Str) :
    parseMicro ('.' :: (pad 6 us ++ r)) = some (us, r) := by
  unfold parseMicro
  exact parseDigitsK_pad0 hus r

/-- `fromisoformat` inverts `isoformat` on every representable UTC
    datetime, microseconds included. -/
theorem fromiso_iso {t : PyDateTime} (hv : t.ValidDT) :
    fromisoformat (isoformat t) = some t := by
  obtain ⟨y, mo, d, h, mi, sec, us⟩ := t
  obtain ⟨hy1, hy2, hmo1, hmo2, hd1, hd2, hh, hmi, hsec, hus⟩ := hv
  unfold isoformat fromisoformat
  rw [parseDigitsK_pad0 (lt_of_le_of_lt hy2 (by norm_num))]
  simp only [bind, Option.bind]
  rw [parseDigitsK_pad0 (lt_of_le_of_lt hmo2 (by norm_num))]
  simp only [bind, Option.bind]
  rw [parseDigitsK_pad0 (lt_of_le_of_lt hd2 (by norm_num))]
  simp only [bind, Option.bind]
  rw [parseDigitsK_pad0 (lt_of_le_of_lt hh (by norm_num))]
  simp only [bind, Option.bind]
  rw [parseDigitsK_pad0 (lt_of_le_of_lt hmi (by norm_num))]
  simp only [bind, Option.bind]
  rw [parseDigitsK_pad0 (lt_of_le_of_lt hsec (by norm_num))]
  simp only [bind, Option.bind]
  by_cases hus0 : us = 0
  · subst hus0
    rw [if_pos rfl]
    rw [List.nil_append]
    show (if PyDateTime.ValidDT ⟨y, mo, d, h, mi, sec, 0⟩ then
        some (⟨y, mo, d, h, mi, sec, 0⟩ : PyDateTime) else none)
      = some ⟨y, mo, d, h, mi, sec, 0⟩
    rw [if_pos (show PyDateTime.ValidDT ⟨y, mo, d, h, mi, sec, 0⟩ from
      ⟨hy1, hy2, hmo1, hmo2, hd1, hd2, hh, hmi, hsec, by omega⟩)]
  · rw [if_neg hus0]
    rw [List.cons_append]
    have hus2 : us ≤ 999999 := hus
    rw [parseMicro_pad (lt_of_le_of_lt hus2 (by norm_num))]
    show (if PyDateTime.ValidDT ⟨y, mo, d, h, mi, sec, us⟩ then
        some (⟨y, mo, d, h, mi, sec, us⟩ : PyDateTime) else none)
      = some ⟨y, mo, d, h, mi, sec, us⟩
    rw [if_pos (show PyDateTime.ValidDT ⟨y, mo, d, h, mi, sec, us⟩ from
      ⟨hy1, hy2, hmo1, hmo2, hd1, hd2, hh, hmi, hsec, hus2⟩)]

/-- C9: appending an `AnalysisRecord` to the store (serializing its
    timestamp to an ISO-8601 string) and reading it back through
    `get_recent_analyses` (parsing the string) returns the record with
    a timestamp equal to the original instant, microseconds included. -/
theorem store_roundtrip_timestamp (a : AnalysisOut)
    (hv : a.timestamp.ValidDT) :
    get_recent_analyses ([] ++ [serializeDoc a]) = Except.ok [a] := by
  obtain ⟨id0, un, ov, sb, st, wk, rc, pd, ts⟩ := a
  unfold get_recent_analyses serializeDoc
  rw [List.nil_append]
  rw [show List.insertionSort docGe
      [(⟨id0, un, ov, sb, st, wk, rc, pd, isoformat ts⟩ : StoredDoc)]
    = [⟨id0, un, ov, sb, st, wk, rc, pd, isoformat ts⟩] from rfl]
  rw [show ([(⟨id0, un, ov, sb, st, wk, rc, pd, isoformat ts⟩ : StoredDoc)]).take 10
    = [⟨id0, un, ov, sb, st, wk, rc, pd, isoformat ts⟩] from rfl]
  unfold deserializeAll deserializeDoc
  rw [fromiso_iso hv]
  rfl

/-- C9 witness: a concrete record with microsecond precision survives
    the append/list round trip unchanged. -/
theorem store_roundtrip_timestamp_witness :
    get_recent_analyses ([] ++ [serializeDoc
      ⟨"id0".toList, "octocat".toList, 58, ⟨60, 65, 55, 60, 50, 60⟩,
       [], [], [], JVal.obj [], ⟨2024, 5, 6, 7, 8, 9, 123456⟩⟩])
    = Except.ok [⟨"id0".toList, "octocat".toList, 58, ⟨60, 65, 55, 60, 50, 60⟩,
       [], [], [], JVal.obj [], ⟨2024, 5, 6, 7, 8, 9, 123456⟩⟩] :=
  store_roundtrip_timestamp _ (by decide)

theorem strLe_refl (s : Str) : strLe s s = true := by
  induction s with
  | nil => rfl
  | cons c cs ih => simp [strLe, ih]

theorem strLe_total (x y : Str) : strLe x y = true ∨ strLe y x = true := by
  induction x generalizing y with
  | nil => left; rfl
  | cons a as ih =>
    cases y with
    | nil => right; rfl
    | cons b bs =>
      by_cases hab : a.toNat = b.toNat
      · simp only [strLe, hab, if_pos rfl]
        rcases ih bs with h | h
        · left
          simpa [hab] using h
        · right
          simp [strLe, hab.symm, h]
      · rcases Nat.lt_or_ge a.toNat b.toNat with h | h
        · left
          simp [strLe, hab, h]
        · right
          have hba : b.toNat ≠ a.toNat := fun e => hab e.symm
          have : b.toNat < a.toNat := lt_of_le_of_ne h hba
          simp [strLe, hba, this]

theorem strLe_trans {x y z : Str} (h1 : strLe x y = true)
    (h2 : strLe y z = true) : strLe x z = true := by
  induction x generalizing y z with
  | nil => rfl
  | cons a as ih =>
    cases y with
    | nil => exact absurd h1 (by simp [strLe])
    | cons b bs =>
      cases z with
      | nil => exact absurd h2 (by simp [strLe])
      | cons c cs =>
        simp only [strLe] at h1 h2 ⊢
        by_cases hab : a.toNat = b.toNat
        · rw [if_pos hab] at h1
          by_cases hbc : b.toNat = c.toNat
          · rw [if_pos hbc] at h2
            rw [if_pos (hab.trans hbc)]
            exact ih h1 h2
          · rw [if_neg hbc] at h2
            have hlt : b.toNat < c.toNat := by simpa using h2
            have hac : a.toNat ≠ c.toNat := by omega
            rw [if_neg hac]
            simp
            omega
        · rw [if_neg hab] at h1
          have hlt1 : a.toNat < b.toNat := by simpa using h1
          by_cases hbc : b.toNat = c.toNat
          · rw [if_pos hbc] at h2
            have hac : a.toNat ≠ c.toNat := by omega
            rw [if_neg hac]
            simp
            omega
          · rw [if_neg hbc] at h2
            have hlt2 : b.toNat < c.toNat := by simpa using h2
            have hac : a.toNat ≠ c.toNat := by omega
            rw [if_neg hac]
            simp
            omega

theorem char_toNat_inj {a b : Char} (h : a.toNat = b.toNat) : a = b :=
  Char.ext (UInt32.ext h)

theorem digitChar_toNat : ∀ d, d < 10 → (Nat.digitChar d).toNat = 48 + d := by
  decide

/-- Comparing equal-length blocks followed by arbitrary suffixes:
    the blocks decide unless they are equal. -/
theorem strLe_append_eqlen {x y : Str} (h : x.length = y.length)
    (r s : Str) :
    strLe (x ++ r) (y ++ s) = if x = y then strLe r s else strLe x y := by
  induction x generalizing y with
  | nil =>
    cases y with
    | nil => simp
    | cons b bs => simp at h
  | cons a as ih =>
    cases y with
    | nil => simp at h
    | cons b bs =>
      simp only [List.length_cons] at h
      have h2 : as.length = bs.length := by omega
      by_cases hab : a.toNat = b.toNat
      · have hab2 : a = b := char_toNat_inj hab
        subst hab2
        have lhs1 : strLe ((a :: as) ++ r) ((a :: bs) ++ s)
            = strLe (as ++ r) (bs ++ s) := by
          simp [strLe]
        have rhs1 : strLe (a :: as) (a :: bs) = strLe as bs := by
          simp [strLe]
        rw [lhs1, ih h2, rhs1]
        by_cases he : as = bs
        · subst he
          simp
        · rw [if_neg he, if_neg (by simp [he])]
      · have hne : (a :: as) ≠ (b :: bs) := by
          intro hc
          injection hc with hc1 hc2
          exact hab (by rw [hc1])
        rw [if_neg hne]
        show strLe ((a :: as) ++ r) ((b :: bs) ++ s) = strLe (a :: as) (b :: bs)
        simp [strLe, hab]

theorem pad_le (k : Nat) : ∀ {m n : Nat}, m < 10 ^ k → n < 10 ^ k →
    strLe (pad k m) (pad k n) = decide (m ≤ n) := by
  induction k with
  | zero =>
    intro m n hm hn
    have hm0 : m = 0 := by omega
    have hn0 : n = 0 := by omega
    subst_vars
    simp [pad, strLe]
  | succ k ih =>
    intro m n hm hn
    have hqm : m / 10 ^ k < 10 := by
      apply Nat.div_lt_of_lt_mul
      calc m < 10 ^ (k + 1) := hm
        _ = 10 * 10 ^ k := by ring
        _ = 10 ^ k * 10 := by ring
    have hqn : n / 10 ^ k < 10 := by
      apply Nat.div_lt_of_lt_mul
      calc n < 10 ^ (k + 1) := hn
        _ = 10 * 10 ^ k := by ring
        _ = 10 ^ k * 10 := by ring
    show strLe (Nat.digitChar (m / 10 ^ k) :: pad k (m % 10 ^ k))
      (Nat.digitChar (n / 10 ^ k) :: pad k (n % 10 ^ k)) = decide (m ≤ n)
    have hdm := Nat.div_add_mod m (10 ^ k)
    have hdn := Nat.div_add_mod n (10 ^ k)
    have hmm : m % 10 ^ k < 10 ^ k :=
      Nat.mod_lt _ (Nat.pos_pow_of_pos k (by norm_num))
    have hnn : n % 10 ^ k < 10 ^ k :=
      Nat.mod_lt _ (Nat.pos_pow_of_pos k (by norm_num))
    by_cases hq : m / 10 ^ k = n / 10 ^ k
    · have hcq : (Nat.digitChar (m / 10 ^ k)).toNat
          = (Nat.digitChar (n / 10 ^ k)).toNat := by rw [hq]
      simp only [strLe, if_pos hcq]
      rw [ih hmm hnn]
      have h1 : 10 ^ k * (n / 10 ^ k) + m % 10 ^ k = m := by
        rw [← hq]
        exact hdm
      have hiff : (m ≤ n) ↔ (m % 10 ^ k ≤ n % 10 ^ k) := by omega
      by_cases hle : m % 10 ^ k ≤ n % 10 ^ k
      · simp [hle, hiff.mpr hle]
      · have hgt : ¬ m ≤ n := fun hx => hle (hiff.mp hx)
        simp [hle, hgt]
    · have hcq : (Nat.digitChar (m / 10 ^ k)).toNat
          ≠ (Nat.digitChar (n / 10 ^ k)).toNat := by
        rw [digitChar_toNat _ hqm, digitChar_toNat _ hqn]
        omega
      simp only [strLe, if_neg hcq]
      rw [digitChar_toNat _ hqm, digitChar_toNat _ hqn]
      by_cases hql : m / 10 ^ k < n / 10 ^ k
      · have hmn : m < n := Nat.lt_of_div_lt_div hql
        simp only [decide_eq_decide]
        omega
      · have hqg : n / 10 ^ k < m / 10 ^ k := by omega
        have hnm : n < m := Nat.lt_of_div_lt_div hqg
        simp only [decide_eq_decide]
        omega

theorem pad_inj {k m n : Nat} (hm : m < 10 ^ k) (hn : n < 10 ^ k)
    (h : pad k m = pad k n) : m = n := by
  have h1 := pad_le k hm hn
  have h2 := pad_le k hn hm
  rw [h, strLe_refl] at h1
  rw [← h, strLe_refl] at h2
  have e1 : m ≤ n := of_decide_eq_true h1.symm
  have e2 : n ≤ m := of_decide_eq_true h2.symm
  omega

theorem strLe_cons_same (c : Char) (x y : Str) :
    strLe (c :: x) (c :: y) = strLe x y := by
  simp [strLe]

theorem strLe_pad_step {k m n : Nat} (hm : m < 10 ^ k) (hn : n < 10 ^ k)
    (r s : Str) :
    strLe (pad k m ++ r) (pad k n ++ s)
    = if m = n then strLe r s else decide (m < n) := by
  rw [strLe_append_eqlen (by rw [pad_length, pad_length]) r s]
  by_cases he : m = n
  · subst he
    rw [if_pos rfl, if_pos rfl]
  · rw [if_neg he, if_neg (fun hc => he (pad_inj hm hn hc)), pad_le k hm hn]
    simp only [decide_eq_decide]
    omega


/-- On representable datetimes, byte-wise comparison of the ISO-8601
    strings agrees with chronological comparison. -/
theorem iso_strLe {a b : PyDateTime} (ha : a.ValidDT) (hb : b.ValidDT) :
    strLe (isoformat a) (isoformat b) = dtLeB a b := by
  obtain ⟨y1, mo1, d1, h1, mi1, s1, us1⟩ := a
  obtain ⟨y2, mo2, d2, h2, mi2, s2, us2⟩ := b
  obtain ⟨hy1a, hy2a, hmo1a, hmo2a, hd1a, hd2a, hha, hmia, hseca, husa⟩ := ha
  obtain ⟨hy1b, hy2b, hmo1b, hmo2b, hd1b, hd2b, hhb, hmib, hsecb, husb⟩ := hb
  simp only at hy2a hmo2a hd2a hha hmia hseca husa hy2b hmo2b hd2b hhb hmib hsecb husb
  unfold isoformat dtLeB
  dsimp only
  rw [strLe_pad_step (lt_of_le_of_lt hy2a (by norm_num))
    (lt_of_le_of_lt hy2b (by norm_num))]
  by_cases hy : y1 = y2
  · subst hy
    rw [if_pos rfl, if_neg (show ¬ (y1 ≠ y1) from fun h => h rfl), strLe_cons_same]
    rw [strLe_pad_step (lt_of_le_of_lt hmo2a (by norm_num))
      (lt_of_le_of_lt hmo2b (by norm_num))]
    by_cases hmo : mo1 = mo2
    · subst hmo
      rw [if_pos rfl, if_neg (show ¬ (mo1 ≠ mo1) from fun h => h rfl),
        strLe_cons_same]
      rw [strLe_pad_step (lt_of_le_of_lt hd2a (by norm_num))
        (lt_of_le_of_lt hd2b (by norm_num))]
      by_cases hd : d1 = d2
      · subst hd
        rw [if_pos rfl, if_neg (show ¬ (d1 ≠ d1) from fun h => h rfl),
          strLe_cons_same]
        rw [strLe_pad_step (lt_of_le_of_lt hha (by norm_num))
          (lt_of_le_of_lt hhb (by norm_num))]
        by_cases hh : h1 = h2
        · subst hh
          rw [if_pos rfl, if_neg (show ¬ (h1 ≠ h1) from fun h => h rfl),
            strLe_cons_same]
          rw [strLe_pad_step (lt_of_le_of_lt hmia (by norm_num))
            (lt_of_le_of_lt hmib (by norm_num))]
          by_cases hmi : mi1 = mi2
          · subst hmi
            rw [if_pos rfl, if_neg (show ¬ (mi1 ≠ mi1) from fun h => h rfl),
              strLe_cons_same]
            rw [strLe_pad_step (lt_of_le_of_lt hseca (by norm_num))
              (lt_of_le_of_lt hsecb (by norm_num))]
            by_cases hs : s1 = s2
            · subst hs
              rw [if_pos rfl, if_neg (show ¬ (s1 ≠ s1) from fun h => h rfl)]
              by_cases hu1 : us1 = 0
              · by_cases hu2 : us2 = 0
                · rw [if_pos hu1, if_pos hu2, List.nil_append, strLe_refl]
                  simp [hu1, hu2]
                · rw [if_pos hu1, if_neg hu2, List.nil_append, List.cons_append]
                  rw [show strLe ("+00:00".toList)
                      ('.' :: (pad 6 us2 ++ "+00:00".toList)) = true from rfl]
                  simp [hu1]
              · by_cases hu2 : us2 = 0
                · rw [if_neg hu1, if_pos hu2, List.cons_append, List.nil_append]
                  rw [show strLe ('.' :: (pad 6 us1 ++ "+00:00".toList))
                      ("+00:00".toList) = false from rfl]
                  have hle : ¬ (us1 ≤ us2) := by omega
                  simp [hle]
                · rw [if_neg hu1, if_neg hu2, List.cons_append, List.cons_append,
                    strLe_cons_same]
                  rw [strLe_pad_step (lt_of_le_of_lt husa (by norm_num))
                    (lt_of_le_of_lt husb (by norm_num))]
                  by_cases hus : us1 = us2
                  · subst hus
                    rw [if_pos rfl, strLe_refl]
                    simp
                  · rw [if_neg hus]
                    simp only [decide_eq_decide]
                    omega
            · rw [if_neg hs, if_pos hs]
          · rw [if_neg hmi, if_pos hmi]
        · rw [if_neg hh, if_pos hh]
      · rw [if_neg hd, if_pos hd]
    · rw [if_neg hmo, if_pos hmo]
  · rw [if_neg hy, if_pos hy]

instance : IsTotal StoredDoc docGe :=
  ⟨fun a b => strLe_total b.timestamp a.timestamp⟩

instance : IsTrans StoredDoc docGe :=
  ⟨fun _ _ _ hab hbc => strLe_trans hbc hab⟩

/-- Total version of `deserializeDoc`, used to name the output list. -/
def deserializeDocD (d : StoredDoc) : AnalysisOut :=
  (deserializeDoc d).getD
    ⟨[], [], 0, ⟨0, 0, 0, 0, 0, 0⟩, [], [], [], JVal.null, ⟨1, 1, 1, 0, 0, 0, 0⟩⟩

theorem deserializeDoc_eq {d : StoredDoc} {t : PyDateTime} (hv : t.ValidDT)
    (hts : d.timestamp = isoformat t) :
    deserializeDoc d = some ⟨d.id, d.username, d.overall_score,
      d.score_breakdown, d.strengths, d.weaknesses, d.recommendations,
      d.profile_data, t⟩ := by
  unfold deserializeDoc
  rw [hts, fromiso_iso hv]
  rfl

theorem deserializeDocD_eq {d : StoredDoc} {t : PyDateTime} (hv : t.ValidDT)
    (hts : d.timestamp = isoformat t) :
    deserializeDocD d = ⟨d.id, d.username, d.overall_score,
      d.score_breakdown, d.strengths, d.weaknesses, d.recommendations,
      d.profile_data, t⟩ := by
  unfold deserializeDocD
  rw [deserializeDoc_eq hv hts]
  rfl

theorem deserializeAll_map (l : List StoredDoc)
    (h : ∀ d ∈ l, (deserializeDoc d).isSome) :
    deserializeAll l = Except.ok (l.map deserializeDocD) := by
  induction l with
  | nil => rfl
  | cons d ds ih =>
    obtain ⟨r, hr⟩ := Option.isSome_iff_exists.mp (h d (List.mem_cons_self d ds))
    rw [List.map_cons]
    unfold deserializeAll
    rw [hr, ih (fun x hx => h x (List.mem_cons_of_mem d hx))]
    have hd : deserializeDocD d = r := by
      unfold deserializeDocD
      rw [hr]
      rfl
    rw [hd]
    rfl

/-- C8: for every store state whose documents carry well-formed ISO-8601
    timestamp strings, `GET /api/analyses` succeeds and returns at most 10
    records, their timestamps are non-increasing from first to last (newest
    first), and each returned record is a stored document with its ISO-8601
    timestamp string deserialized back into a datetime value. -/
theorem get_recent_analyses_sound (store : List StoredDoc)
    (hstore : ∀ d ∈ store, ∃ t, PyDateTime.ValidDT t ∧ d.timestamp = isoformat t) :
    ∃ out, get_recent_analyses store = Except.ok out ∧
      out.length ≤ 10 ∧
      List.Pairwise
        (fun a b : AnalysisOut => dtLeB b.timestamp a.timestamp = true) out ∧
      ∀ r ∈ out, ∃ d ∈ store, deserializeDoc d = some r := by
  have hmem10 : ∀ d ∈ (List.insertionSort docGe store).take 10, d ∈ store :=
    fun d hd => (List.perm_insertionSort docGe store).mem_iff.mp
      ((List.take_sublist 10 _).subset hd)
  have hsome : ∀ d ∈ (List.insertionSort docGe store).take 10,
      (deserializeDoc d).isSome := by
    intro d hd
    obtain ⟨t, hv, hts⟩ := hstore d (hmem10 d hd)
    rw [deserializeDoc_eq hv hts]
    rfl
  have hsorted10 : List.Pairwise docGe ((List.insertionSort docGe store).take 10) :=
    List.Pairwise.sublist (List.take_sublist 10 _)
      (List.sorted_insertionSort docGe store)
  refine ⟨((List.insertionSort docGe store).take 10).map deserializeDocD,
    ?_, ?_, ?_, ?_⟩
  · exact deserializeAll_map _ hsome
  · rw [List.length_map]
    exact List.length_take_le 10 _
  · refine List.pairwise_map.mpr (List.Pairwise.imp_of_mem ?_ hsorted10)
    intro a b ha hb hab
    obtain ⟨t1, hv1, hts1⟩ := hstore a (hmem10 a ha)
    obtain ⟨t2, hv2, hts2⟩ := hstore b (hmem10 b hb)
    rw [deserializeDocD_eq hv1 hts1, deserializeDocD_eq hv2 hts2]
    unfold docGe at hab
    rw [hts1, hts2, iso_strLe hv2 hv1] at hab
    exact hab
  · intro r hr
    obtain ⟨d, hd, hrd⟩ := List.mem_map.mp hr
    obtain ⟨t, hv, hts⟩ := hstore d (hmem10 d hd)
    refine ⟨d, hmem10 d hd, ?_⟩
    rw [← hrd, deserializeDocD_eq hv hts]
    exact deserializeDoc_eq hv hts

theorem get_recent_analyses_sound_witness :
    ∃ out, get_recent_analyses
        [⟨('a' :: []), ('u' :: []), 50, ⟨1, 2, 3, 4, 5, 6⟩, [], [], [],
          JVal.null, isoformat ⟨2024, 5, 1, 12, 0, 0, 0⟩⟩,
         ⟨('b' :: []), ('v' :: []), 60, ⟨6, 5, 4, 3, 2, 1⟩, [], [], [],
          JVal.null, isoformat ⟨2024, 6, 2, 8, 30, 15, 123456⟩⟩]
      = Except.ok out ∧
      out.length ≤ 10 ∧
      List.Pairwise
        (fun a b : AnalysisOut => dtLeB b.timestamp a.timestamp = true) out ∧
      ∀ r ∈ out, ∃ d ∈
        [⟨('a' :: []), ('u' :: []), 50, ⟨1, 2, 3, 4, 5, 6⟩, [], [], [],
          JVal.null, isoformat ⟨2024, 5, 1, 12, 0, 0, 0⟩⟩,
         ⟨('b' :: []), ('v' :: []), 60, ⟨6, 5, 4, 3, 2, 1⟩, [], [], [],
          JVal.null, isoformat ⟨2024, 6, 2, 8, 30, 15, 123456⟩⟩],
        deserializeDoc d = some r :=
  get_recent_analyses_sound _ (by
    intro d hd
    rcases List.mem_cons.mp hd with h | hd2
    · exact ⟨⟨2024, 5, 1, 12, 0, 0, 0⟩, by decide, by rw [h]⟩
    · rcases List.mem_cons.mp hd2 with h | h3
      · exact ⟨⟨2024, 6, 2, 8, 30, 15, 123456⟩, by decide, by rw [h]⟩
      · exact absurd h3 (List.not_mem_nil d))
